import Mathlib

/-!
# Sort-and-filter proxy model of the process table

A shallow embedding of `src/model/process_sort_filter_proxy_model.cpp`:
`setSortFilterString`, `filterAcceptsRow` and `lessThan`.

The three functions are thin dispatchers over library services (QVariant
comparison and conversion, QRegExp, the collator, the Han-to-Latin
transliterator, the system locale).  Those services are not part of the
translated file; they are gathered in the record `QtApi`, and every theorem
with variables holds for all implementations of it, under the hypotheses it
states.  One concrete implementation, `sampleApi`, evaluates the definitions
on explicit inputs.
-/

namespace ProcessMonitor

/-! ## Strings -/

/-- QChar: one UTF-16 code unit. -/
abbrev QChar := Nat

/-- QString: a sequence of UTF-16 code units. -/
abbrev QString := List QChar

/-- The code units of a string literal whose characters lie in the basic plane. -/
def qstr (s : String) : QString := s.toList.map Char.toNat

namespace QString

/-- QString `operator<`: lexicographic comparison of the code units. -/
def lt : QString → QString → Bool
  | [], [] => false
  | [], _ :: _ => true
  | _ :: _, [] => false
  | a :: as, b :: bs => if a < b then true else if b < a then false else lt as bs

/-- QString `at(i)`; the code reads position 0 of non-empty strings only. -/
def charAt (s : QString) (i : Nat) : QChar := s.getD i 0

/-- Whether `sub` starts `s`. -/
def startsWith : QString → QString → Bool
  | _, [] => true
  | [], _ :: _ => false
  | c :: cs, d :: ds => decide (c = d) && startsWith cs ds

/-- QString `contains(const QString &)`, case sensitive: `sub` occurs in `s`.
The empty string occurs in every string. -/
def contains : QString → QString → Bool
  | [], sub => startsWith [] sub
  | c :: cs, sub => startsWith (c :: cs) sub || contains cs sub

/-- Worker of `splitWs`: `cur` is the field being read, `inRun` tells that the
previous code unit was a separator. -/
def splitWsAux (isSpace : QChar → Bool) : QString → QString → Bool → List QString
  | [], cur, _ => [cur]
  | c :: cs, cur, inRun =>
    if isSpace c then
      (if inRun then splitWsAux isSpace cs [] true
       else cur :: splitWsAux isSpace cs [] true)
    else splitWsAux isSpace cs (cur ++ [c]) false

/-- QString `split(QRegExp("\\s+"))` with the default `KeepEmptyParts`: the
fields between the maximal runs of whitespace, empty fields included. -/
def splitWs (isSpace : QChar → Bool) (s : QString) : List QString :=
  splitWsAux isSpace s [] false

end QString

/-! ## Table data -/

/-- The item data roles the proxy reads. -/
inductive Role
  | DisplayRole
  | UserRole
  /-- The role `Qt::UserRole + 1`. -/
  | UserRolePlus1
  deriving DecidableEq, Repr

/-- The columns of `ProcessTableModel` the proxy names, and the others. -/
inductive Column
  | kProcessNameColumn
  | kProcessCPUColumn
  | kProcessUserColumn
  | kProcessMemoryColumn
  | kProcessUploadColumn
  | kProcessDownloadColumn
  | kProcessDiskReadColumn
  | kProcessDiskWriteColumn
  | kProcessPIDColumn
  | kProcessNiceColumn
  | kProcessPriorityColumn
  /-- Any other value of `sortColumn()`. -/
  | unlisted (n : Int)
  deriving DecidableEq, Repr

/-- QModelIndex: the invalid index, or a cell of the source model. -/
inductive QModelIndex
  | invalid
  | cell (row : Int) (column : Column)
  deriving DecidableEq, Repr

/-- The library services the proxy model calls.  `V` is QVariant, `R` is qreal. -/
structure QtApi (V R : Type) where
  /-- The value `QVariant()`. -/
  invalidVariant : V
  /-- The conversion `QVariant::toString`. -/
  toString : V → QString
  /-- The conversion `QVariant::toReal`. -/
  toReal : V → R
  /-- The conversion `QVariant::toULongLong`. -/
  toULongLong : V → Nat
  /-- QVariant `operator<`. -/
  variantLess : V → V → Bool
  /-- QVariant `operator==`. -/
  variantEquals : V → V → Bool
  /-- The comparison `<` of qreal. -/
  realLess : R → R → Bool
  /-- The function `qFuzzyCompare(double, double)`. -/
  qFuzzyCompare : R → R → Bool
  /-- The test `QChar::isLetterOrNumber`. -/
  isLetterOrNumber : QChar → Bool
  /-- The test `QChar::isSpace`, which `\s` of QRegExp matches. -/
  isSpace : QChar → Bool
  /-- Whether `QRegExp(pattern, Qt::CaseInsensitive).isValid()`. -/
  regExpIsValid : QString → Bool
  /-- Whether the engine of `QRegExp(pattern, Qt::CaseInsensitive)` finds a
  match somewhere in the text. -/
  regExpSearch : QString → QString → Bool
  /-- The call `util::common::Collator::instance()->compare(a, b)`. -/
  collatorCompare : QString → QString → Int
  /-- The call `util::common::convHanToLatin`. -/
  convHanToLatin : QString → QString
  /-- Whether `QLocale::system().language() == QLocale::Chinese`. -/
  localeIsChinese : Bool
  /-- The comparison of `QSortFilterProxyModel::lessThan` on the two cells'
  sort-role data. -/
  isVariantLessThan : V → V → Bool

/-- The source model, a table: which cells exist, and their data. -/
structure SourceModel (V : Type) where
  /-- The test `hasIndex(row, column)`. -/
  hasIndex : Int → Column → Bool
  /-- The data of an existing cell under a role. -/
  data : Int → Column → Role → V

variable {V R : Type}

/-- The call `sourceModel()->index(row, column, parent)` of a table model. -/
def SourceModel.index (m : SourceModel V) (row : Int) (column : Column) : QModelIndex :=
  if m.hasIndex row column then QModelIndex.cell row column else QModelIndex.invalid

namespace QModelIndex

/-- The test `isValid()`. -/
def isValid : QModelIndex → Bool
  | invalid => false
  | cell _ _ => true

/-- The call `data(role)`: an invalid index yields `QVariant()`. -/
def data (api : QtApi V R) (m : SourceModel V) (idx : QModelIndex) (role : Role) : V :=
  match idx with
  | invalid => api.invalidVariant
  | cell row column => m.data row column role

/-- The call `idx.sibling(idx.row(), column)`: an invalid index has no model
and yields the invalid index; a valid one yields itself when the column is its
own, and the model's index of the same row otherwise. -/
def sibling (m : SourceModel V) (idx : QModelIndex) (column : Column) : QModelIndex :=
  match idx with
  | invalid => invalid
  | cell row c => if c = column then cell row c else m.index row column

end QModelIndex

/-- The call `text.contains(rx)` for `rx = QRegExp(pattern, Qt::CaseInsensitive)`:
the engine searches only when the pattern is valid. -/
def containsRegExp (api : QtApi V R) (pattern text : QString) : Bool :=
  api.regExpIsValid pattern && api.regExpSearch pattern text

/-! ## The proxy model -/

/-- The members of `ProcessSortFilterProxyModel` the search writes. -/
structure ProxyState where
  m_search : QString
  m_hanwords : QString
  m_capwords : QString
  /-- The pattern of `filterRegExp()`. -/
  filterRegExp : QString
  deriving DecidableEq, Repr

/-- The state of a freshly constructed proxy model. -/
def ProxyState.init : ProxyState := ⟨[], [], [], []⟩

/-- The loop over `wlist`: append the first code unit of each non-empty word. -/
def appendInitials (capwords : QString) (wlist : List QString) : QString :=
  wlist.foldl (fun acc w => if w.length = 0 then acc else acc ++ [QString.charAt w 0]) capwords

/-- The method `setSortFilterString`. -/
def setSortFilterString (api : QtApi V R) (st : ProxyState) (search : QString) : ProxyState :=
  let st1 : ProxyState := { st with m_search := search }
  let st2 : ProxyState :=
    if api.localeIsChinese then
      let st3 : ProxyState := { st1 with m_hanwords := api.convHanToLatin search }
      if st3.m_hanwords.length = 0 then
        { st3 with m_capwords := [] }
      else
        let wlist := QString.splitWs api.isSpace st3.m_hanwords
        { st3 with m_capwords := appendInitials st3.m_capwords wlist }
    else st1
  { st2 with filterRegExp := search }

/-- The method `filterAcceptsRow`. -/
def filterAcceptsRow (api : QtApi V R) (st : ProxyState) (m : SourceModel V) (row : Int) : Bool :=
  let name := m.index row Column.kProcessNameColumn
  let pid := m.index row Column.kProcessPIDColumn
  let user := m.index row Column.kProcessUserColumn
  let rc0 := false
  let rc1 :=
    if name.isValid then
      let r1 := rc0 || containsRegExp api st.filterRegExp
        (api.toString (name.data api m Role.DisplayRole))
      let r2 := r1 || containsRegExp api st.filterRegExp
        (api.toString (name.data api m Role.UserRole))
      if api.localeIsChinese then
        r2 || QString.contains (api.toString (name.data api m Role.UserRole)) st.m_hanwords
      else r2
    else rc0
  let rc2 :=
    if pid.isValid then
      rc1 || containsRegExp api st.filterRegExp (api.toString (pid.data api m Role.DisplayRole))
    else rc1
  let rc3 :=
    if user.isValid then
      rc2 || containsRegExp api st.filterRegExp (api.toString (user.data api m Role.DisplayRole))
    else rc2
  rc3

/-- The method `lessThan`, with the value of `sortColumn()` as an argument. -/
def lessThan (api : QtApi V R) (m : SourceModel V) (sortColumn : Column)
    (left right : QModelIndex) : Bool :=
  match sortColumn with
  | Column.kProcessNameColumn =>
    let a := api.toString (left.data api m Role.DisplayRole)
    let b := api.toString (right.data api m Role.DisplayRole)
    if a.length = 0 ∨ b.length = 0 then
      QString.lt a b
    else if QString.charAt a 0 = QString.charAt b 0 ∧ a = b then
      api.variantLess
        ((left.sibling m Column.kProcessCPUColumn).data api m Role.UserRole)
        ((right.sibling m Column.kProcessCPUColumn).data api m Role.UserRole)
    else if api.isLetterOrNumber (QString.charAt a 0) &&
        api.isLetterOrNumber (QString.charAt b 0) &&
        decide (QString.charAt a 0 ≠ QString.charAt b 0) then
      QString.lt a b
    else
      decide (api.collatorCompare a b < 0)
  | Column.kProcessUserColumn =>
    decide (api.collatorCompare (api.toString (left.data api m Role.DisplayRole))
      (api.toString (right.data api m Role.DisplayRole)) < 0)
  | Column.kProcessMemoryColumn =>
    let lmem := left.data api m Role.UserRole
    let rmem := right.data api m Role.UserRole
    if api.variantEquals lmem rmem then
      api.variantLess
        ((left.sibling m Column.kProcessCPUColumn).data api m Role.UserRole)
        ((right.sibling m Column.kProcessCPUColumn).data api m Role.UserRole)
    else
      api.variantLess lmem rmem
  | Column.kProcessCPUColumn =>
    let lcpu := left.data api m Role.UserRole
    let rcpu := right.data api m Role.UserRole
    let lmem := (left.sibling m Column.kProcessMemoryColumn).data api m Role.UserRole
    let rmem := (right.sibling m Column.kProcessMemoryColumn).data api m Role.UserRole
    if api.qFuzzyCompare (api.toReal lcpu) (api.toReal rcpu) then
      api.variantLess lmem rmem
    else
      api.variantLess lcpu rcpu
  | Column.kProcessUploadColumn =>
    let lkbs := api.toReal (left.data api m Role.UserRole)
    let rkbs := api.toReal (right.data api m Role.UserRole)
    if api.qFuzzyCompare lkbs rkbs then
      let lb := api.toULongLong (left.data api m Role.UserRolePlus1)
      let rb := api.toULongLong (right.data api m Role.UserRolePlus1)
      decide (lb < rb)
    else
      api.realLess lkbs rkbs
  | Column.kProcessDownloadColumn =>
    let lkbs := api.toReal (left.data api m Role.UserRole)
    let rkbs := api.toReal (right.data api m Role.UserRole)
    if api.qFuzzyCompare lkbs rkbs then
      let lb := api.toULongLong (left.data api m Role.UserRolePlus1)
      let rb := api.toULongLong (right.data api m Role.UserRolePlus1)
      decide (lb < rb)
    else
      api.realLess lkbs rkbs
  | Column.kProcessPIDColumn =>
    api.variantLess (left.data api m Role.UserRole) (right.data api m Role.UserRole)
  | Column.kProcessDiskReadColumn =>
    api.variantLess (left.data api m Role.UserRole) (right.data api m Role.UserRole)
  | Column.kProcessDiskWriteColumn =>
    api.variantLess (left.data api m Role.UserRole) (right.data api m Role.UserRole)
  | Column.kProcessNiceColumn =>
    !(api.variantLess (left.data api m Role.UserRole) (right.data api m Role.UserRole))
  | Column.kProcessPriorityColumn =>
    !(api.variantLess
        ((left.sibling m Column.kProcessNiceColumn).data api m Role.UserRole)
        ((right.sibling m Column.kProcessNiceColumn).data api m Role.UserRole))
  | Column.unlisted _ =>
    api.isVariantLessThan (left.data api m Role.DisplayRole) (right.data api m Role.DisplayRole)

/-! ## A sample implementation of the services, and sample tables

`sampleApi` gives values to the services on the inputs the examples use:
numbers of one kind compared with each other, texts converted to themselves,
patterns without metacharacters, and the malformed patterns `[k` and `[a-z`. -/

/-- A QVariant of the sample: invalid, a `qlonglong`, a `qulonglong`, a
`double` or a QString.  The double `real v` is the number `v / 2^40`; every
such number below `2^13` in size is a double. -/
inductive Variant
  | invalid
  | longlong (v : Int)
  | ulonglong (v : Nat)
  | real (v : Int)
  | string (s : QString)
  deriving DecidableEq, Repr

/-- The function `qFuzzyCompare(double p1, double p2)` of `qglobal.h`,
`qAbs(p1 - p2) * 1000000000000. <= qMin(qAbs(p1), qAbs(p2))`, on two numbers
with the same denominator `2^40`, which cancels. -/
def sampleFuzzyCompare (p1 p2 : Int) : Bool :=
  decide ((p1 - p2).natAbs * 1000000000000 ≤ min p1.natAbs p2.natAbs)

namespace Variant

/-- The decimal digits of a natural number, as code units. -/
def digits (n : Nat) : QString := (Nat.toDigits 10 n).map Char.toNat

/-- The conversion `toString` of the sample: a text is itself, an integer its
decimal numeral, the invalid value the empty text.  The text of a double is
not modelled (no example reads it) and is left empty. -/
def toString : Variant → QString
  | invalid => []
  | longlong v => if v < 0 then 45 :: digits v.natAbs else digits v.natAbs
  | ulonglong v => digits v
  | real _ => []
  | string s => s

/-- The conversion `toReal` of the sample, in units of `2^-40`: the value of a
number, zero for the invalid value.  The number a text denotes is not
modelled (no example reads it) and is left zero. -/
def toReal : Variant → Int
  | invalid => 0
  | longlong v => v * 2 ^ 40
  | ulonglong v => (v : Int) * 2 ^ 40
  | real v => v
  | string _ => 0

/-- The conversion `toULongLong` of the sample: an integer modulo `2^64`, zero
for the invalid value.  Doubles and texts are not modelled (no example
converts them) and are left zero. -/
def toULongLong : Variant → Nat
  | invalid => 0
  | longlong v => (v % 2 ^ 64).toNat
  | ulonglong v => v
  | real _ => 0
  | string _ => 0

/-- The numeric comparison of two doubles inside QVariant: equal when equal
or, both being non-zero, when `qFuzzyCompare` holds. -/
def realEquals (x y : Int) : Bool :=
  decide (x = y) || (decide (x ≠ 0) && decide (y ≠ 0) && sampleFuzzyCompare x y)

/-- QVariant `operator==` of the sample: numbers are compared after the usual
promotion, two texts by their code units, two invalid values are equal.  A
number, a text and the invalid value are unequal to each other. -/
def equals : Variant → Variant → Bool
  | invalid, invalid => true
  | longlong x, longlong y => decide (x = y)
  | ulonglong x, ulonglong y => decide (x = y)
  | longlong x, ulonglong y => decide ((x % 2 ^ 64).toNat = y)
  | ulonglong x, longlong y => decide (x = (y % 2 ^ 64).toNat)
  | real x, real y => realEquals x y
  | real x, longlong y => realEquals x (y * 2 ^ 40)
  | real x, ulonglong y => realEquals x ((y : Int) * 2 ^ 40)
  | longlong x, real y => realEquals (x * 2 ^ 40) y
  | ulonglong x, real y => realEquals ((x : Int) * 2 ^ 40) y
  | string s, string t => decide (s = t)
  | _, _ => false

/-- QVariant `operator<` of the sample: numbers are compared after the usual
promotion, doubles being less only when they are not equal in the sense of
`realEquals`; two invalid values are equal, hence not less.  The order of the
remaining pairs (a text, or one invalid value) is not modelled: no example
compares them, and the sample answers `false`. -/
def less : Variant → Variant → Bool
  | longlong x, longlong y => decide (x < y)
  | ulonglong x, ulonglong y => decide (x < y)
  | longlong x, ulonglong y => decide ((x % 2 ^ 64).toNat < y)
  | ulonglong x, longlong y => decide (x < (y % 2 ^ 64).toNat)
  | real x, real y => !realEquals x y && decide (x < y)
  | real x, longlong y => !realEquals x (y * 2 ^ 40) && decide (x < y * 2 ^ 40)
  | real x, ulonglong y => !realEquals x ((y : Int) * 2 ^ 40) && decide (x < (y : Int) * 2 ^ 40)
  | longlong x, real y => !realEquals (x * 2 ^ 40) y && decide (x * 2 ^ 40 < y)
  | ulonglong x, real y => !realEquals ((x : Int) * 2 ^ 40) y && decide ((x : Int) * 2 ^ 40 < y)
  | _, _ => false

end Variant

/-- The sample's `QChar::toLower`, on the letters A to Z. -/
def sampleToLower (c : QChar) : QChar := if 65 ≤ c ∧ c ≤ 90 then c + 32 else c

/-- The sample's `QChar::toUpper`, on the letters a to z. -/
def sampleToUpper (c : QChar) : QChar := if 97 ≤ c ∧ c ≤ 122 then c - 32 else c

/-- The letters and digits of ASCII. -/
def asciiAlnum (c : QChar) : Bool :=
  decide ((48 ≤ c ∧ c ≤ 57) ∨ (65 ≤ c ∧ c ≤ 90) ∨ (97 ≤ c ∧ c ≤ 122))

/-- The sample's `QChar::isLetterOrNumber`: the letters and digits of ASCII and
the unified ideographs U+4E00 to U+9FFF. -/
def sampleIsLetterOrNumber (c : QChar) : Bool :=
  asciiAlnum c || decide (19968 ≤ c ∧ c ≤ 40959)

/-- The sample's `QChar::isSpace`: U+0009 to U+000D, the space, U+0085, U+00A0
and the separators of the basic plane. -/
def sampleIsSpace (c : QChar) : Bool :=
  decide (c = 32 ∨ (9 ≤ c ∧ c ≤ 13) ∨ c = 133 ∨ c = 160 ∨ c = 5760 ∨
    (8192 ≤ c ∧ c ≤ 8202) ∨ c = 8232 ∨ c = 8233 ∨ c = 8239 ∨ c = 8287 ∨ c = 12288)

/-- The metacharacters of QRegExp: one of `\ ^ $ . | ? * + ( ) [ ] { }`. -/
def isMetaChar (c : QChar) : Bool :=
  decide (c = 92 ∨ c = 94 ∨ c = 36 ∨ c = 46 ∨ c = 124 ∨ c = 63 ∨ c = 42 ∨ c = 43 ∨
    c = 40 ∨ c = 41 ∨ c = 91 ∨ c = 93 ∨ c = 123 ∨ c = 125)

/-- A pattern without metacharacters: a literal text. -/
def isLiteralPattern (p : QString) : Bool := p.all (fun c => !isMetaChar c)

/-- The sample's regular expressions know no operator: a pattern is valid
when it has no metacharacter.  QRegExp agrees on the patterns of the examples:
it accepts the literal ones, and reports `[k` and `[a-z`, whose bracket is not
closed, as malformed. -/
def sampleRegExpIsValid (p : QString) : Bool := isLiteralPattern p

/-- The sample's search: a literal pattern is searched ignoring case. -/
def sampleRegExpSearch (p text : QString) : Bool :=
  QString.contains (text.map sampleToLower) (p.map sampleToLower)

/-- The key of the sample collator: the letters and digits of the text, in
upper case. -/
def collationKey (s : QString) : QString := (s.filter asciiAlnum).map sampleToUpper

/-- The sample collator, a dictionary order: it compares the letters and
digits of the two texts, ignoring case and every other character. -/
def sampleCollatorCompare (a b : QString) : Int :=
  if QString.lt (collationKey a) (collationKey b) then -1
  else if QString.lt (collationKey b) (collationKey a) then 1
  else 0

/-- The sample transliterator: U+4E2D becomes `zhong`, U+95F4 becomes `jian`,
each followed by a space; every other code unit is kept. -/
def sampleHanToLatin : QString → QString
  | [] => []
  | c :: cs =>
    (if c = 20013 then qstr "zhong " else if c = 38388 then qstr "jian " else [c])
      ++ sampleHanToLatin cs

/-- The sample services, for a locale that is Chinese or not. -/
def sampleApi (chinese : Bool) : QtApi Variant Int where
  invalidVariant := Variant.invalid
  toString := Variant.toString
  toReal := Variant.toReal
  toULongLong := Variant.toULongLong
  variantLess := Variant.less
  variantEquals := Variant.equals
  realLess := fun x y => decide (x < y)
  qFuzzyCompare := sampleFuzzyCompare
  isLetterOrNumber := sampleIsLetterOrNumber
  isSpace := sampleIsSpace
  regExpIsValid := sampleRegExpIsValid
  regExpSearch := sampleRegExpSearch
  collatorCompare := sampleCollatorCompare
  convHanToLatin := sampleHanToLatin
  localeIsChinese := chinese
  isVariantLessThan := Variant.less

/-- One process of a sample table.  The rates are in units of `2^-40`. -/
structure ProcessRow where
  name : QString
  altName : QString
  pid : Nat
  user : QString
  cpu : Int
  memory : Nat
  sentBps : Int
  sentBytes : Nat
  recvBps : Int
  recvBytes : Nat
  nice : Int
  deriving DecidableEq, Repr

/-- The cell of a sample row: the display text, and under `Qt::UserRole` the
raw value (for the name the alternate text), under `Qt::UserRole + 1` the
cumulative bytes of the two network columns. -/
def ProcessRow.cell (p : ProcessRow) : Column → Role → Variant
  | Column.kProcessNameColumn, Role.DisplayRole => Variant.string p.name
  | Column.kProcessNameColumn, Role.UserRole => Variant.string p.altName
  | Column.kProcessPIDColumn, Role.DisplayRole => Variant.string (Variant.digits p.pid)
  | Column.kProcessPIDColumn, Role.UserRole => Variant.longlong p.pid
  | Column.kProcessUserColumn, Role.DisplayRole => Variant.string p.user
  | Column.kProcessCPUColumn, Role.UserRole => Variant.real p.cpu
  | Column.kProcessMemoryColumn, Role.UserRole => Variant.ulonglong p.memory
  | Column.kProcessUploadColumn, Role.UserRole => Variant.real p.sentBps
  | Column.kProcessUploadColumn, Role.UserRolePlus1 => Variant.ulonglong p.sentBytes
  | Column.kProcessDownloadColumn, Role.UserRole => Variant.real p.recvBps
  | Column.kProcessDownloadColumn, Role.UserRolePlus1 => Variant.ulonglong p.recvBytes
  | Column.kProcessNiceColumn, Role.UserRole => Variant.longlong p.nice
  | _, _ => Variant.invalid

/-- The table of the listed processes: row `i` is the `i`-th process, every
column exists for the rows in range. -/
def sampleTable (rows : List ProcessRow) : SourceModel Variant where
  hasIndex := fun row _ => decide (0 ≤ row ∧ row < rows.length)
  data := fun row column role =>
    match rows.get? row.toNat with
    | some p => p.cell column role
    | none => Variant.invalid

/-- A process with the given name, nice value and CPU share, everything else
being zero or empty. -/
def mkProcess (name : QString) (nice : Int) (cpu : Int) : ProcessRow :=
  ⟨name, name, 0, [], cpu, 0, 0, 0, 0, 0, nice⟩

/-! ## The sort keys of a row, and the laws of the services -/

/-- The raw value of the CPU cell of the row of `idx`. -/
def cpuOf (api : QtApi V R) (m : SourceModel V) (idx : QModelIndex) : V :=
  (idx.sibling m Column.kProcessCPUColumn).data api m Role.UserRole

/-- The raw value of the memory cell of the row of `idx`. -/
def memoryOf (api : QtApi V R) (m : SourceModel V) (idx : QModelIndex) : V :=
  (idx.sibling m Column.kProcessMemoryColumn).data api m Role.UserRole

/-- The raw value of the nice cell of the row of `idx`. -/
def niceOf (api : QtApi V R) (m : SourceModel V) (idx : QModelIndex) : V :=
  (idx.sibling m Column.kProcessNiceColumn).data api m Role.UserRole

/-- The display text of the cell `idx`. -/
def displayText (api : QtApi V R) (m : SourceModel V) (idx : QModelIndex) : QString :=
  api.toString (idx.data api m Role.DisplayRole)

/-- The alternate text of the cell `idx`, its data under `Qt::UserRole`. -/
def altText (api : QtApi V R) (m : SourceModel V) (idx : QModelIndex) : QString :=
  api.toString (idx.data api m Role.UserRole)

/-- The value `lessThan` compares first, for the columns that compare
QVariants. -/
def primaryKeys (api : QtApi V R) (m : SourceModel V) : Column → QModelIndex → List V
  | Column.kProcessMemoryColumn, idx => [idx.data api m Role.UserRole]
  | Column.kProcessCPUColumn, idx => [idx.data api m Role.UserRole]
  | Column.kProcessPIDColumn, idx => [idx.data api m Role.UserRole]
  | Column.kProcessDiskReadColumn, idx => [idx.data api m Role.UserRole]
  | Column.kProcessDiskWriteColumn, idx => [idx.data api m Role.UserRole]
  | Column.kProcessNiceColumn, idx => [idx.data api m Role.UserRole]
  | Column.kProcessPriorityColumn, idx => [niceOf api m idx]
  | _, _ => []

/-- The QVariant `lessThan` compares on a tie of the first comparison. -/
def tieKeys (api : QtApi V R) (m : SourceModel V) : Column → QModelIndex → List V
  | Column.kProcessNameColumn, idx => [cpuOf api m idx]
  | Column.kProcessMemoryColumn, idx => [cpuOf api m idx]
  | Column.kProcessCPUColumn, idx => [memoryOf api m idx]
  | _, _ => []

/-- The rate of the two network columns. -/
def sortRates (api : QtApi V R) (m : SourceModel V) : Column → QModelIndex → List R
  | Column.kProcessUploadColumn, idx => [api.toReal (idx.data api m Role.UserRole)]
  | Column.kProcessDownloadColumn, idx => [api.toReal (idx.data api m Role.UserRole)]
  | _, _ => []

/-- The text the collator may be given. -/
def sortTexts (api : QtApi V R) (m : SourceModel V) : Column → QModelIndex → List QString
  | Column.kProcessNameColumn, idx => [displayText api m idx]
  | Column.kProcessUserColumn, idx => [displayText api m idx]
  | _, _ => []

/-- The data the base class compares, for a column the proxy does not name. -/
def defaultKeys (api : QtApi V R) (m : SourceModel V) : Column → QModelIndex → List V
  | Column.unlisted _, idx => [idx.data api m Role.DisplayRole]
  | _, _ => []

/-- The test `lessThan` makes before the tie-break: approximate equality of
the real values in the CPU column, QVariant `operator==` elsewhere. -/
def primaryTie (api : QtApi V R) (column : Column) (x y : V) : Bool :=
  match column with
  | Column.kProcessCPUColumn => api.qFuzzyCompare (api.toReal x) (api.toReal y)
  | _ => api.variantEquals x y

/-- On the listed values `less` is a strict weak order (irreflexive,
transitive, negatively transitive) and `tie` is its equivalence. -/
def StrictWeakOn {α : Type} (less tie : α → α → Bool) (ks : List α) : Prop :=
  ∀ x ∈ ks, ∀ y ∈ ks, ∀ z ∈ ks,
    less x x = false ∧
    (less x y = true → less y z = true → less x z = true) ∧
    (less x z = true → less x y = true ∨ less y z = true) ∧
    tie x y = (!less x y && !less y x)

/-- On the listed values `less` is transitive. -/
def TransOn {α : Type} (less : α → α → Bool) (ks : List α) : Prop :=
  ∀ x ∈ ks, ∀ y ∈ ks, ∀ z ∈ ks, less x y = true → less y z = true → less x z = true

/-- The condition of the fast path of the Name column, on two non-empty names. -/
def fastPath (api : QtApi V R) (a b : QString) : Bool :=
  api.isLetterOrNumber (QString.charAt a 0) && api.isLetterOrNumber (QString.charAt b 0) &&
    decide (QString.charAt a 0 ≠ QString.charAt b 0)

/-- On the listed values no value is `less` than itself. -/
def IrreflOn {α : Type} (less : α → α → Bool) (ks : List α) : Prop :=
  ∀ x ∈ ks, less x x = false

/-- On the listed values `less` is negatively transitive: a value less than
another is less than every third value or that one is less than the other. -/
def NegTransOn {α : Type} (less : α → α → Bool) (ks : List α) : Prop :=
  ∀ x ∈ ks, ∀ y ∈ ks, ∀ z ∈ ks, less x z = true → less x y = true ∨ less y z = true

/-- Whether `p` occurs in `text` when both are folded by `fold`. -/
def containsFolded (fold : QChar → QChar) (text p : QString) : Bool :=
  QString.contains (text.map fold) (p.map fold)

/-! ## Sample tables -/

/-- One process with nice value 0. -/
def tableNiceZero : SourceModel Variant := sampleTable [mkProcess (qstr "init") 0 0]

/-- Two processes, with nice values -5 and 5. -/
def tableNice : SourceModel Variant :=
  sampleTable [mkProcess (qstr "kworker") (-5) 0, mkProcess (qstr "backup") 5 0]

/-- Three processes with memory 100, 100 and 200 and CPU shares 10, 20 and 5. -/
def tableMemory : SourceModel Variant :=
  sampleTable
    [⟨qstr "p", qstr "p", 1, qstr "root", 10 * 2 ^ 40, 100, 0, 0, 0, 0, 0⟩,
     ⟨qstr "q", qstr "q", 2, qstr "root", 20 * 2 ^ 40, 100, 0, 0, 0, 0, 0⟩,
     ⟨qstr "r", qstr "r", 3, qstr "root", 5 * 2 ^ 40, 200, 0, 0, 0, 0, 0⟩]

/-- One kernel thread, displayed as `[kthreadd]`. -/
def tableKernel : SourceModel Variant :=
  sampleTable [⟨qstr "[kthreadd]", qstr "kthreadd", 2, qstr "root", 0, 0, 0, 0, 0, 0, 0⟩]

/-- One process named `firefox`, of user `alice`, with PID 1234. -/
def tableFirefox : SourceModel Variant :=
  sampleTable [⟨qstr "firefox", qstr "firefox-esr", 1234, qstr "alice", 0, 0, 0, 0, 0, 0, 0⟩]

/-- One process whose name and alternate text are the two ideographs U+4E2D
U+95F4, of user `root`, with PID 42. -/
def tableHan : SourceModel Variant :=
  sampleTable [⟨[20013, 38388], [20013, 38388], 42, qstr "root", 0, 0, 0, 0, 0, 0, 0⟩]

/-- Two processes of empty name, with CPU shares 1 and 2. -/
def tableEmptyNames : SourceModel Variant :=
  sampleTable [mkProcess [] 0 (2 ^ 40), mkProcess [] 0 (2 * 2 ^ 40)]

/-- Two processes named `bash`, with CPU shares 1 and 2. -/
def tableSameName : SourceModel Variant :=
  sampleTable [mkProcess (qstr "bash") 0 (2 ^ 40), mkProcess (qstr "bash") 0 (2 * 2 ^ 40)]

/-- Two processes named `B` and `a`. -/
def tableCase : SourceModel Variant :=
  sampleTable [mkProcess (qstr "B") 0 0, mkProcess (qstr "a") 0 0]

/-- The rate of the cell `idx` of a network column, its raw value as a real. -/
def rateOf (api : QtApi V R) (m : SourceModel V) (idx : QModelIndex) : R :=
  api.toReal (idx.data api m Role.UserRole)

/-- The cumulative bytes of the cell `idx` of a network column, its value
under `Qt::UserRole + 1` as an unsigned integer. -/
def bytesOf (api : QtApi V R) (m : SourceModel V) (idx : QModelIndex) : Nat :=
  api.toULongLong (idx.data api m Role.UserRolePlus1)

/-- On the listed values `less` never holds both ways. -/
def AsymOn {α : Type} (less : α → α → Bool) (ks : List α) : Prop :=
  ∀ x ∈ ks, ∀ y ∈ ks, less x y = true → less y x = false

/-- On the listed values the test `tie` does not depend on the order of its
arguments. -/
def SymmOn {α : Type} (tie : α → α → Bool) (ks : List α) : Prop :=
  ∀ x ∈ ks, ∀ y ∈ ks, tie x y = tie y x

/-- On the listed texts the collator never orders two texts both ways. -/
def CollatorAsymOn (api : QtApi V R) (ts : List QString) : Prop :=
  ∀ x ∈ ts, ∀ y ∈ ts, api.collatorCompare x y < 0 → ¬ api.collatorCompare y x < 0

/-- The equivalence of a comparison: neither value is less than the other. -/
def incomparable {α : Type} (less : α → α → Bool) (x y : α) : Bool :=
  !less x y && !less y x

/-- The lexicographic comparison of two pairs by `less`: the first components
decide, and the second ones when the first are equivalent. -/
def lexLess {α : Type} (less : α → α → Bool) (x1 x2 y1 y2 : α) : Bool :=
  less x1 y1 || (incomparable less x1 y1 && less x2 y2)

/-- The services of `api` in a locale that is Chinese or not. -/
def withLocale (api : QtApi V R) (chinese : Bool) : QtApi V R :=
  { api with localeIsChinese := chinese }

/-- Whether the pattern of the filter matches one of the texts of the row: the
display name or the alternate text (the name index being valid), the PID
string (the PID index being valid), the user name (the user index being
valid). -/
def regExpAccepts (api : QtApi V R) (st : ProxyState) (m : SourceModel V) (row : Int) : Bool :=
  (m.hasIndex row Column.kProcessNameColumn &&
      (containsRegExp api st.filterRegExp
          (api.toString (m.data row Column.kProcessNameColumn Role.DisplayRole)) ||
        containsRegExp api st.filterRegExp
          (api.toString (m.data row Column.kProcessNameColumn Role.UserRole)))) ||
    (m.hasIndex row Column.kProcessPIDColumn &&
      containsRegExp api st.filterRegExp
        (api.toString (m.data row Column.kProcessPIDColumn Role.DisplayRole))) ||
    (m.hasIndex row Column.kProcessUserColumn &&
      containsRegExp api st.filterRegExp
        (api.toString (m.data row Column.kProcessUserColumn Role.DisplayRole)))

/-- Two processes with the same nice value 3. -/
def tableNiceEqual : SourceModel Variant :=
  sampleTable [mkProcess (qstr "cron") 3 0, mkProcess (qstr "atd") 3 0]

/-- Two processes whose upload and download rates are all 12.5, with 1000 and
2000 bytes sent and received. -/
def tableRates : SourceModel Variant :=
  sampleTable
    [⟨qstr "curl", qstr "curl", 10, qstr "alice", 0, 0, 25 * 2 ^ 39, 1000, 25 * 2 ^ 39, 1000, 0⟩,
     ⟨qstr "wget", qstr "wget", 11, qstr "alice", 0, 0, 25 * 2 ^ 39, 2000, 25 * 2 ^ 39, 2000, 0⟩]

/-- One process named `tool` whose alternate text is `zhong jian tool`. -/
def tablePinyin : SourceModel Variant :=
  sampleTable [⟨qstr "tool", qstr "zhong jian tool", 7, qstr "root", 0, 0, 0, 0, 0, 0, 0⟩]

/-- Two processes with memory 100 and 200 and CPU share 1. -/
def tableTwoMemory : SourceModel Variant :=
  sampleTable
    [⟨qstr "p", qstr "p", 1, qstr "root", 2 ^ 40, 100, 0, 0, 0, 0, 0⟩,
     ⟨qstr "q", qstr "q", 2, qstr "root", 2 ^ 40, 200, 0, 0, 0, 0, 0⟩]

/-- Three processes of equal memory 100 whose CPU shares are 1, 1 + 2^-40 and
1 + 2^-39. -/
def tableMemoryClose : SourceModel Variant :=
  sampleTable
    [⟨qstr "p", qstr "p", 1, qstr "root", 2 ^ 40, 100, 0, 0, 0, 0, 0⟩,
     ⟨qstr "q", qstr "q", 2, qstr "root", 2 ^ 40 + 1, 100, 0, 0, 0, 0, 0⟩,
     ⟨qstr "r", qstr "r", 3, qstr "root", 2 ^ 40 + 2, 100, 0, 0, 0, 0, 0⟩]

/-- Nothing is less than the empty string. -/
theorem QString.lt_nil_right (a : QString) : QString.lt a [] = false := by
  cases a <;> rfl

/-- The empty string is less than every non-empty string. -/
theorem QString.lt_nil_left (b : QString) (hb : b ≠ []) : QString.lt [] b = true := by
  cases b with
  | nil => exact absurd rfl hb
  | cons _ _ => rfl

/-- Transitivity of a tie-broken comparison, on truth values: `l` stands for
the first comparison of two of three keys, `p q r` for the tie-breaks. -/
theorem bool_lex_trans (lxy lyx lyz lzy lxz lzx p q r : Bool)
    (t1 : lxy = true → lyz = true → lxz = true)
    (n1 : lxz = true → lxy = true ∨ lyz = true)
    (n2 : lyz = true → lyx = true ∨ lxz = true)
    (n3 : lxy = true → lxz = true ∨ lzy = true)
    (n4 : lzx = true → lzy = true ∨ lyx = true)
    (ht : p = true → q = true → r = true)
    (hxy : (if (!lxy && !lyx) = true then p else lxy) = true)
    (hyz : (if (!lyz && !lzy) = true then q else lyz) = true) :
    (if (!lxz && !lzx) = true then r else lxz) = true := by
  revert t1 n1 n2 n3 n4 ht hxy hyz
  revert lxy lyx lyz lzy lxz lzx p q r
  decide

/-- A comparison by a strict weak order, with a transitive tie-break on its
equivalence, is transitive. -/
theorem lex_trans {α β : Type} (less tie : α → α → Bool) (tb : β → β → Bool)
    (ks : List α) (h : StrictWeakOn less tie ks)
    (x y z : α) (hx : x ∈ ks) (hy : y ∈ ks) (hz : z ∈ ks) (p q r : β)
    (ht : tb p q = true → tb q r = true → tb p r = true)
    (hxy : (if tie x y = true then tb p q else less x y) = true)
    (hyz : (if tie y z = true then tb q r else less y z) = true) :
    (if tie x z = true then tb p r else less x z) = true := by
  have e1 := (h x hx y hy z hz).2.2.2
  have e2 := (h y hy z hz x hx).2.2.2
  have e3 := (h x hx z hz y hy).2.2.2
  rw [e1] at hxy
  rw [e2] at hyz
  rw [e3]
  exact bool_lex_trans _ _ _ _ _ _ _ _ _ (h x hx y hy z hz).2.1 (h x hx y hy z hz).2.2.1
    (h y hy x hx z hz).2.2.1 (h x hx z hz y hy).2.2.1 (h z hz y hy x hx).2.2.1 ht hxy hyz

/-- The comparison of the Name column on two display texts and the two CPU
values, as `lessThan` makes it. -/
theorem lessThan_name_eq (api : QtApi V R) (m : SourceModel V) (l r : QModelIndex) :
    lessThan api m Column.kProcessNameColumn l r =
      (if (displayText api m l).length = 0 ∨ (displayText api m r).length = 0 then
        QString.lt (displayText api m l) (displayText api m r)
      else if QString.charAt (displayText api m l) 0 = QString.charAt (displayText api m r) 0 ∧
          displayText api m l = displayText api m r then
        api.variantLess (cpuOf api m l) (cpuOf api m r)
      else if fastPath api (displayText api m l) (displayText api m r) then
        QString.lt (displayText api m l) (displayText api m r)
      else decide (api.collatorCompare (displayText api m l) (displayText api m r) < 0)) := by
  rfl

/-- Outside the Nice and Priority columns no row is less than itself, when
the comparisons of the services are irreflexive on the sort keys of the row. -/
theorem lessThan_irrefl_of_lawful (api : QtApi V R) (m : SourceModel V) (col : Column)
    (a : QModelIndex)
    (hN : col ≠ Column.kProcessNiceColumn) (hP : col ≠ Column.kProcessPriorityColumn)
    (h1 : ∀ v ∈ primaryKeys api m col a ++ tieKeys api m col a, api.variantLess v v = false)
    (h3 : ∀ r ∈ sortRates api m col a, api.realLess r r = false)
    (h4 : ∀ t ∈ sortTexts api m col a, ¬ api.collatorCompare t t < 0)
    (h6 : ∀ v ∈ defaultKeys api m col a, api.isVariantLessThan v v = false) :
    lessThan api m col a a = false := by
  cases col with
  | kProcessNameColumn =>
    rw [lessThan_name_eq]
    by_cases h : displayText api m a = []
    · rw [if_pos (Or.inl (by simp [h])), h]
      rfl
    · have h0 : ¬ (displayText api m a).length = 0 := by
        simpa [List.length_eq_zero] using h
      rw [if_neg (by tauto), if_pos ⟨rfl, rfl⟩]
      exact h1 _ (by simp [tieKeys])
  | kProcessUserColumn =>
    exact decide_eq_false (h4 _ (by simp [sortTexts, displayText]))
  | kProcessMemoryColumn =>
    unfold lessThan
    dsimp only
    split
    · exact h1 _ (by simp [tieKeys, cpuOf])
    · exact h1 _ (by simp [primaryKeys])
  | kProcessCPUColumn =>
    unfold lessThan
    dsimp only
    split
    · exact h1 _ (by simp [tieKeys, memoryOf])
    · exact h1 _ (by simp [primaryKeys])
  | kProcessUploadColumn =>
    unfold lessThan
    dsimp only
    split
    · simp
    · exact h3 _ (by simp [sortRates])
  | kProcessDownloadColumn =>
    unfold lessThan
    dsimp only
    split
    · simp
    · exact h3 _ (by simp [sortRates])
  | kProcessPIDColumn => exact h1 _ (by simp [primaryKeys])
  | kProcessDiskReadColumn => exact h1 _ (by simp [primaryKeys])
  | kProcessDiskWriteColumn => exact h1 _ (by simp [primaryKeys])
  | kProcessNiceColumn => exact absurd rfl hN
  | kProcessPriorityColumn => exact absurd rfl hP
  | unlisted n => exact h6 _ (by simp [defaultKeys])

/-- Claim C1, at the input where the code departs from it: with sort column
Nice, and with sort column Priority, a row of nice value 0 is reported less
than itself. -/
theorem lessThan_nice_self_sample :
    lessThan (sampleApi false) tableNiceZero Column.kProcessNiceColumn
        (QModelIndex.cell 0 Column.kProcessNiceColumn)
        (QModelIndex.cell 0 Column.kProcessNiceColumn) = true ∧
      lessThan (sampleApi false) tableNiceZero Column.kProcessPriorityColumn
        (QModelIndex.cell 0 Column.kProcessPriorityColumn)
        (QModelIndex.cell 0 Column.kProcessPriorityColumn) = true := by
  decide

/-- Claim C3 as stated fails: with sort column Priority, and with sort column
Nice, the row of nice value -5 is not less than the row of nice value 5, and
the row of nice value 5 is less than the row of nice value -5. -/
theorem lessThan_nice_minus5_5_sample :
    lessThan (sampleApi false) tableNice Column.kProcessPriorityColumn
        (QModelIndex.cell 0 Column.kProcessPriorityColumn)
        (QModelIndex.cell 1 Column.kProcessPriorityColumn) = false ∧
      lessThan (sampleApi false) tableNice Column.kProcessPriorityColumn
        (QModelIndex.cell 1 Column.kProcessPriorityColumn)
        (QModelIndex.cell 0 Column.kProcessPriorityColumn) = true ∧
      lessThan (sampleApi false) tableNice Column.kProcessNiceColumn
        (QModelIndex.cell 0 Column.kProcessNiceColumn)
        (QModelIndex.cell 1 Column.kProcessNiceColumn) = false ∧
      lessThan (sampleApi false) tableNice Column.kProcessNiceColumn
        (QModelIndex.cell 1 Column.kProcessNiceColumn)
        (QModelIndex.cell 0 Column.kProcessNiceColumn) = true := by
  decide

/-- Claim C3, amended: for two rows whose nice values x and y satisfy x < y in
the QVariant comparison (and not y < x), with sort column Nice and with sort
column Priority the row of x is not less than the row of y, and the row of y
is less than the row of x. -/
theorem lessThan_nice_inverted (api : QtApi V R) (m : SourceModel V) (ra rb : Int)
    (ha : m.hasIndex ra Column.kProcessNiceColumn = true)
    (hb : m.hasIndex rb Column.kProcessNiceColumn = true)
    (hxy : api.variantLess (m.data ra Column.kProcessNiceColumn Role.UserRole)
      (m.data rb Column.kProcessNiceColumn Role.UserRole) = true)
    (hyx : api.variantLess (m.data rb Column.kProcessNiceColumn Role.UserRole)
      (m.data ra Column.kProcessNiceColumn Role.UserRole) = false) :
    lessThan api m Column.kProcessNiceColumn
        (QModelIndex.cell ra Column.kProcessNiceColumn)
        (QModelIndex.cell rb Column.kProcessNiceColumn) = false ∧
      lessThan api m Column.kProcessNiceColumn
        (QModelIndex.cell rb Column.kProcessNiceColumn)
        (QModelIndex.cell ra Column.kProcessNiceColumn) = true ∧
      lessThan api m Column.kProcessPriorityColumn
        (QModelIndex.cell ra Column.kProcessPriorityColumn)
        (QModelIndex.cell rb Column.kProcessPriorityColumn) = false ∧
      lessThan api m Column.kProcessPriorityColumn
        (QModelIndex.cell rb Column.kProcessPriorityColumn)
        (QModelIndex.cell ra Column.kProcessPriorityColumn) = true := by
  simp [lessThan, QModelIndex.data, QModelIndex.sibling, SourceModel.index, ha, hb, hxy, hyx]

/-- The amended claim C3 at the nice values -5 and 5. -/
theorem lessThan_nice_inverted_witness :
    lessThan (sampleApi false) tableNice Column.kProcessNiceColumn
        (QModelIndex.cell 0 Column.kProcessNiceColumn)
        (QModelIndex.cell 1 Column.kProcessNiceColumn) = false ∧
      lessThan (sampleApi false) tableNice Column.kProcessNiceColumn
        (QModelIndex.cell 1 Column.kProcessNiceColumn)
        (QModelIndex.cell 0 Column.kProcessNiceColumn) = true ∧
      lessThan (sampleApi false) tableNice Column.kProcessPriorityColumn
        (QModelIndex.cell 0 Column.kProcessPriorityColumn)
        (QModelIndex.cell 1 Column.kProcessPriorityColumn) = false ∧
      lessThan (sampleApi false) tableNice Column.kProcessPriorityColumn
        (QModelIndex.cell 1 Column.kProcessPriorityColumn)
        (QModelIndex.cell 0 Column.kProcessPriorityColumn) = true :=
  lessThan_nice_inverted (sampleApi false) tableNice 0 1 (by decide) (by decide)
    (by decide) (by decide)

/-- Claim C9 as stated fails: with sort column Name, two rows of empty name
and CPU shares 1 and 2 compare as not less, although the CPU value of the first
is less than that of the second. -/
theorem lessThan_name_empty_sample :
    displayText (sampleApi false) tableEmptyNames (QModelIndex.cell 0 Column.kProcessNameColumn)
        = [] ∧
      displayText (sampleApi false) tableEmptyNames (QModelIndex.cell 1 Column.kProcessNameColumn)
        = [] ∧
      (sampleApi false).variantLess
        (cpuOf (sampleApi false) tableEmptyNames (QModelIndex.cell 0 Column.kProcessNameColumn))
        (cpuOf (sampleApi false) tableEmptyNames (QModelIndex.cell 1 Column.kProcessNameColumn))
        = true ∧
      lessThan (sampleApi false) tableEmptyNames Column.kProcessNameColumn
        (QModelIndex.cell 0 Column.kProcessNameColumn)
        (QModelIndex.cell 1 Column.kProcessNameColumn) = false := by
  decide

/-- Claim C9, amended: with sort column Name, for two rows whose display names
are fully equal, lessThan is the QVariant comparison of the CPU values of the
two rows when the name is not empty, and is false when the name is empty. -/
theorem lessThan_name_tie (api : QtApi V R) (m : SourceModel V) (l r : QModelIndex)
    (heq : displayText api m l = displayText api m r) :
    lessThan api m Column.kProcessNameColumn l r =
      (if displayText api m l = [] then false
       else api.variantLess (cpuOf api m l) (cpuOf api m r)) := by
  rw [lessThan_name_eq, ← heq]
  by_cases h : displayText api m l = []
  · rw [if_pos (Or.inl (by simp [h])), if_pos h, h]
    rfl
  · have h0 : ¬ (displayText api m l).length = 0 := by
      simpa [List.length_eq_zero] using h
    rw [if_neg (by tauto), if_pos ⟨rfl, rfl⟩, if_neg h]

/-- The amended claim C9 on two rows named `bash` with CPU shares 1 and 2. -/
theorem lessThan_name_tie_witness :
    lessThan (sampleApi false) tableSameName Column.kProcessNameColumn
        (QModelIndex.cell 0 Column.kProcessNameColumn)
        (QModelIndex.cell 1 Column.kProcessNameColumn) = true :=
  (lessThan_name_tie (sampleApi false) tableSameName
    (QModelIndex.cell 0 Column.kProcessNameColumn)
    (QModelIndex.cell 1 Column.kProcessNameColumn) (by decide)).trans (by decide)

/-- Claim C10: with sort column Name, for two non-empty display names whose
first characters are both letters or digits and differ, lessThan is the raw
comparison of the two names, whichever function the collator computes; that
comparison is decided by the two first characters. -/
theorem lessThan_name_fast_path (api : QtApi V R) (m : SourceModel V) (l r : QModelIndex)
    (cmp : QString → QString → Int)
    (hl : displayText api m l ≠ []) (hr : displayText api m r ≠ [])
    (hla : api.isLetterOrNumber (QString.charAt (displayText api m l) 0) = true)
    (hra : api.isLetterOrNumber (QString.charAt (displayText api m r) 0) = true)
    (hne : QString.charAt (displayText api m l) 0 ≠ QString.charAt (displayText api m r) 0) :
    lessThan { api with collatorCompare := cmp } m Column.kProcessNameColumn l r =
        QString.lt (displayText api m l) (displayText api m r) ∧
      QString.lt (displayText api m l) (displayText api m r) =
        decide (QString.charAt (displayText api m l) 0 < QString.charAt (displayText api m r) 0)
    := by
  constructor
  · rw [lessThan_name_eq]
    have e : ∀ idx, displayText { api with collatorCompare := cmp } m idx =
        displayText api m idx := fun _ => rfl
    rw [e l, e r]
    have hl0 : ¬ (displayText api m l).length = 0 := by
      simpa [List.length_eq_zero] using hl
    have hr0 : ¬ (displayText api m r).length = 0 := by
      simpa [List.length_eq_zero] using hr
    rw [if_neg (by tauto), if_neg (fun h => hne h.1)]
    have hf : fastPath { api with collatorCompare := cmp } (displayText api m l)
        (displayText api m r) = true := by
      simp [fastPath, hla, hra, hne]
    rw [if_pos hf]
  · revert hl hr hne
    generalize displayText api m l = a
    generalize displayText api m r = b
    intro hl hr hne
    cases a with
    | nil => exact absurd rfl hl
    | cons x xs =>
      cases b with
      | nil => exact absurd rfl hr
      | cons y ys =>
        have hxy : x ≠ y := by simpa [QString.charAt] using hne
        simp only [QString.lt, QString.charAt, List.getD_cons_zero]
        by_cases h1 : x < y
        · simp [h1]
        · have h2 : y < x := lt_of_le_of_ne (not_lt.mp h1) (Ne.symm hxy)
          simp [h1, h2]

/-- Claim C10 on the names `B` and `a`: the raw comparison orders `B` first,
although the dictionary-order collator orders `a` first. -/
theorem lessThan_name_fast_path_witness :
    sampleCollatorCompare (qstr "a") (qstr "B") < 0 ∧
      lessThan (sampleApi false) tableCase Column.kProcessNameColumn
        (QModelIndex.cell 0 Column.kProcessNameColumn)
        (QModelIndex.cell 1 Column.kProcessNameColumn) = true :=
  ⟨by decide,
    ((lessThan_name_fast_path (sampleApi false) tableCase
      (QModelIndex.cell 0 Column.kProcessNameColumn)
      (QModelIndex.cell 1 Column.kProcessNameColumn) sampleCollatorCompare
      (by decide) (by decide) (by decide) (by decide) (by decide)).1).trans (by decide)⟩

/-! ## The search state and the filter -/

/-- The pattern of the filter after `setSortFilterString` is the search string. -/
theorem setSortFilterString_filterRegExp (api : QtApi V R) (st : ProxyState) (s : QString) :
    (setSortFilterString api st s).filterRegExp = s := by
  rfl

/-- The member `m_search` after `setSortFilterString` is the search string. -/
theorem setSortFilterString_search (api : QtApi V R) (st : ProxyState) (s : QString) :
    (setSortFilterString api st s).m_search = s := by
  unfold setSortFilterString
  dsimp only
  split
  · split <;> rfl
  · rfl

/-- In the Chinese locale `m_hanwords` is the transliterated search string. -/
theorem setSortFilterString_hanwords (api : QtApi V R) (st : ProxyState) (s : QString)
    (hc : api.localeIsChinese = true) :
    (setSortFilterString api st s).m_hanwords = api.convHanToLatin s := by
  unfold setSortFilterString
  dsimp only
  rw [if_pos hc]
  split <;> rfl

/-- The result of `filterAcceptsRow` as one Boolean expression. -/
theorem filterAcceptsRow_eq (api : QtApi V R) (st : ProxyState) (m : SourceModel V) (row : Int) :
    filterAcceptsRow api st m row =
      ((m.hasIndex row Column.kProcessNameColumn &&
          (containsRegExp api st.filterRegExp
              (api.toString (m.data row Column.kProcessNameColumn Role.DisplayRole)) ||
            containsRegExp api st.filterRegExp
              (api.toString (m.data row Column.kProcessNameColumn Role.UserRole)) ||
            (api.localeIsChinese &&
              QString.contains
                (api.toString (m.data row Column.kProcessNameColumn Role.UserRole))
                st.m_hanwords))) ||
        (m.hasIndex row Column.kProcessPIDColumn &&
          containsRegExp api st.filterRegExp
            (api.toString (m.data row Column.kProcessPIDColumn Role.DisplayRole))) ||
        (m.hasIndex row Column.kProcessUserColumn &&
          containsRegExp api st.filterRegExp
            (api.toString (m.data row Column.kProcessUserColumn Role.DisplayRole)))) := by
  unfold filterAcceptsRow SourceModel.index
  cases h1 : m.hasIndex row Column.kProcessNameColumn <;>
    cases h2 : m.hasIndex row Column.kProcessPIDColumn <;>
    cases h3 : m.hasIndex row Column.kProcessUserColumn <;>
    cases h4 : api.localeIsChinese <;>
    simp [QModelIndex.isValid, QModelIndex.data]

/-- Every string contains the empty string. -/
theorem QString.contains_nil (s : QString) : QString.contains s [] = true := by
  cases s <;> simp [QString.contains, QString.startsWith]

/-- Claim C4 as stated fails: outside the Chinese locale, the search string
`[k` occurs in the display name `[kthreadd]`, is not a valid regular
expression, and the row is rejected. -/
theorem filterAcceptsRow_bracket_sample :
    containsFolded sampleToLower
        (displayText (sampleApi false) tableKernel
          (QModelIndex.cell 0 Column.kProcessNameColumn)) (qstr "[k") = true ∧
      (sampleApi false).regExpIsValid (qstr "[k") = false ∧
      filterAcceptsRow (sampleApi false)
        (setSortFilterString (sampleApi false) ProxyState.init (qstr "[k")) tableKernel 0
        = false := by
  decide

/-- Claim C4, amended: for every search pattern p that is a valid regular
expression and finds a match in every text containing p itself, case ignored
(as a pattern without metacharacters does), and for every row: if p occurs,
case ignored, in the display name or the alternate text (the name index being
valid), in the PID string (the PID index being valid) or in the user name (the
user index being valid), then after setSortFilterString(p) filterAcceptsRow
accepts the row. -/
theorem filterAcceptsRow_of_substring (api : QtApi V R) (st : ProxyState) (m : SourceModel V)
    (row : Int) (p : QString) (fold : QChar → QChar)
    (hvalid : api.regExpIsValid p = true)
    (hlit : ∀ text, containsFolded fold text p = true → api.regExpSearch p text = true)
    (hsub :
      (m.hasIndex row Column.kProcessNameColumn = true ∧
        (containsFolded fold
            (api.toString (m.data row Column.kProcessNameColumn Role.DisplayRole)) p = true ∨
          containsFolded fold
            (api.toString (m.data row Column.kProcessNameColumn Role.UserRole)) p = true)) ∨
      (m.hasIndex row Column.kProcessPIDColumn = true ∧
        containsFolded fold
          (api.toString (m.data row Column.kProcessPIDColumn Role.DisplayRole)) p = true) ∨
      (m.hasIndex row Column.kProcessUserColumn = true ∧
        containsFolded fold
          (api.toString (m.data row Column.kProcessUserColumn Role.DisplayRole)) p = true)) :
    filterAcceptsRow api (setSortFilterString api st p) m row = true := by
  rw [filterAcceptsRow_eq, setSortFilterString_filterRegExp]
  have hrx : ∀ text, containsFolded fold text p = true → containsRegExp api p text = true := by
    intro text h
    simp [containsRegExp, hvalid, hlit text h]
  rcases hsub with ⟨hn, h | h⟩ | ⟨hp, h⟩ | ⟨hu, h⟩
  · simp [hn, hrx _ h]
  · simp [hn, hrx _ h]
  · simp [hp, hrx _ h]
  · simp [hu, hrx _ h]

/-- The amended claim C4 for the pattern `FIRE` and the process `firefox`. -/
theorem filterAcceptsRow_of_substring_witness :
    filterAcceptsRow (sampleApi false)
      (setSortFilterString (sampleApi false) ProxyState.init (qstr "FIRE")) tableFirefox 0
      = true :=
  filterAcceptsRow_of_substring (sampleApi false) ProxyState.init tableFirefox 0 (qstr "FIRE")
    sampleToLower (by decide) (fun _ h => h) (Or.inl ⟨by decide, Or.inl (by decide)⟩)

/-- Claim C5: when the empty pattern is a valid regular expression that
matches in every text, after setSortFilterString of the empty string
filterAcceptsRow accepts every row for which the name index, the PID index or
the user index is valid, whatever the locale. -/
theorem filterAcceptsRow_empty_pattern (api : QtApi V R) (st : ProxyState) (m : SourceModel V)
    (row : Int)
    (hvalid : api.regExpIsValid [] = true)
    (hall : ∀ text, api.regExpSearch [] text = true)
    (hrow : m.hasIndex row Column.kProcessNameColumn = true ∨
      m.hasIndex row Column.kProcessPIDColumn = true ∨
      m.hasIndex row Column.kProcessUserColumn = true) :
    filterAcceptsRow api (setSortFilterString api st []) m row = true := by
  rw [filterAcceptsRow_eq, setSortFilterString_filterRegExp]
  have hrx : ∀ text, containsRegExp api [] text = true := by
    intro text
    simp [containsRegExp, hvalid, hall text]
  rcases hrow with h | h | h <;> simp [h, hrx]

/-- Claim C5 in the Chinese locale, on the process `firefox`, after an earlier
search. -/
theorem filterAcceptsRow_empty_pattern_witness :
    filterAcceptsRow (sampleApi true)
      (setSortFilterString (sampleApi true)
        (setSortFilterString (sampleApi true) ProxyState.init (qstr "zj")) [])
      tableFirefox 0 = true :=
  filterAcceptsRow_empty_pattern (sampleApi true) _ tableFirefox 0 (by decide)
    (fun text => QString.contains_nil (text.map sampleToLower)) (Or.inl (by decide))

/-- Claim C6 as stated fails: outside the Chinese locale, after the search
string `[a-z`, which is not a valid regular expression, the row of the process
`firefox` is rejected, while the empty pattern accepts it. -/
theorem filterAcceptsRow_malformed_sample :
    (sampleApi false).regExpIsValid (qstr "[a-z") = false ∧
      filterAcceptsRow (sampleApi false)
        (setSortFilterString (sampleApi false) ProxyState.init (qstr "[a-z")) tableFirefox 0
        = false ∧
      filterAcceptsRow (sampleApi false)
        (setSortFilterString (sampleApi false) ProxyState.init []) tableFirefox 0 = true := by
  decide

/-- Claim C6, amended: for every search string that is not a valid regular
expression, after setSortFilterString(search) filterAcceptsRow accepts a row
exactly when the locale is Chinese, the name index of the row is valid and the
alternate text contains the transliterated search string; outside the Chinese
locale it rejects every row. -/
theorem filterAcceptsRow_malformed (api : QtApi V R) (st : ProxyState) (m : SourceModel V)
    (row : Int) (search : QString) (hbad : api.regExpIsValid search = false) :
    filterAcceptsRow api (setSortFilterString api st search) m row =
      (api.localeIsChinese && m.hasIndex row Column.kProcessNameColumn &&
        QString.contains (api.toString (m.data row Column.kProcessNameColumn Role.UserRole))
          (api.convHanToLatin search)) := by
  rw [filterAcceptsRow_eq, setSortFilterString_filterRegExp]
  have hrx : ∀ text, containsRegExp api search text = false := by
    intro text
    simp [containsRegExp, hbad]
  cases hc : api.localeIsChinese
  · simp [hrx]
  · rw [setSortFilterString_hanwords api st search hc]
    simp [hrx]

/-- The amended claim C6 in the Chinese locale, for the search string `[a-z`
and the process `firefox`: the row is rejected. -/
theorem filterAcceptsRow_malformed_witness :
    filterAcceptsRow (sampleApi true)
      (setSortFilterString (sampleApi true) ProxyState.init (qstr "[a-z")) tableFirefox 0
      = false :=
  (filterAcceptsRow_malformed (sampleApi true) ProxyState.init tableFirefox 0 (qstr "[a-z")
    (by decide)).trans (by decide)

/-- Claim C7 as stated fails: in the Chinese locale, the alternate text of the
row transliterates to `zhong jian`, whose words start with `z` and `j`, and
after setSortFilterString of `zj` the row is rejected. -/
theorem filterAcceptsRow_initials_sample :
    (sampleApi true).convHanToLatin
        (altText (sampleApi true) tableHan (QModelIndex.cell 0 Column.kProcessNameColumn))
        = qstr "zhong jian " ∧
      filterAcceptsRow (sampleApi true)
        (setSortFilterString (sampleApi true) ProxyState.init (qstr "zj")) tableHan 0
        = false := by
  decide

/-- Claim C7, amended: in the Chinese locale, after setSortFilterString of
`zj`, filterAcceptsRow accepts a row exactly when the pattern `zj` matches the
display name or the alternate text or the alternate text contains the
transliteration of `zj` (the name index being valid), or the pattern matches
the PID string (the PID index being valid) or the user name (the user index
being valid); neither `m_capwords` nor a transliteration of the texts of the
row takes part. -/
theorem filterAcceptsRow_zj (api : QtApi V R) (st : ProxyState) (m : SourceModel V)
    (row : Int) (hc : api.localeIsChinese = true) :
    filterAcceptsRow api (setSortFilterString api st (qstr "zj")) m row =
      ((m.hasIndex row Column.kProcessNameColumn &&
          (containsRegExp api (qstr "zj")
              (api.toString (m.data row Column.kProcessNameColumn Role.DisplayRole)) ||
            containsRegExp api (qstr "zj")
              (api.toString (m.data row Column.kProcessNameColumn Role.UserRole)) ||
            QString.contains
              (api.toString (m.data row Column.kProcessNameColumn Role.UserRole))
              (api.convHanToLatin (qstr "zj")))) ||
        (m.hasIndex row Column.kProcessPIDColumn &&
          containsRegExp api (qstr "zj")
            (api.toString (m.data row Column.kProcessPIDColumn Role.DisplayRole))) ||
        (m.hasIndex row Column.kProcessUserColumn &&
          containsRegExp api (qstr "zj")
            (api.toString (m.data row Column.kProcessUserColumn Role.DisplayRole)))) := by
  rw [filterAcceptsRow_eq, setSortFilterString_filterRegExp,
    setSortFilterString_hanwords api st (qstr "zj") hc, hc]
  simp

/-- The amended claim C7 on the process `firefox`, which no test accepts. -/
theorem filterAcceptsRow_zj_witness :
    filterAcceptsRow (sampleApi true)
      (setSortFilterString (sampleApi true) ProxyState.init (qstr "zj")) tableFirefox 0
      = false :=
  (filterAcceptsRow_zj (sampleApi true) ProxyState.init tableFirefox 0 rfl).trans (by decide)

/-- Claim C8, at the input where the code departs from it: in the Chinese
locale, the search string of the two ideographs U+4E2D U+95F4 transliterates
to `zhong jian`; one call of setSortFilterString on a fresh model leaves
`m_capwords` equal to `zj`, and a second call with the same string leaves it
equal to `zjzj`, while `m_search` and `m_hanwords` are the same after both. -/
theorem setSortFilterString_twice_sample :
    (setSortFilterString (sampleApi true) ProxyState.init [20013, 38388]).m_capwords
        = qstr "zj" ∧
      (setSortFilterString (sampleApi true)
        (setSortFilterString (sampleApi true) ProxyState.init [20013, 38388])
        [20013, 38388]).m_capwords = qstr "zjzj" ∧
      (setSortFilterString (sampleApi true)
        (setSortFilterString (sampleApi true) ProxyState.init [20013, 38388])
        [20013, 38388]).m_hanwords = qstr "zhong jian " ∧
      (setSortFilterString (sampleApi true)
        (setSortFilterString (sampleApi true) ProxyState.init [20013, 38388])
        [20013, 38388]).m_search = [20013, 38388] := by
  decide

/-! ## The comparator, column by column -/

/-- Claim C11: for two rows of the table, lessThan with sort column Priority
is lessThan with sort column Nice on the same two rows, namely the negation of
the QVariant comparison of the two nice values; it is the same in every table
that has the same nice cells, whatever the priority cells hold. -/
theorem lessThan_priority_eq_nice (api : QtApi V R) (m : SourceModel V) (rl rr : Int)
    (hl : m.hasIndex rl Column.kProcessNiceColumn = true)
    (hr : m.hasIndex rr Column.kProcessNiceColumn = true) :
    lessThan api m Column.kProcessPriorityColumn
        (QModelIndex.cell rl Column.kProcessPriorityColumn)
        (QModelIndex.cell rr Column.kProcessPriorityColumn) =
      lessThan api m Column.kProcessNiceColumn
        (QModelIndex.cell rl Column.kProcessNiceColumn)
        (QModelIndex.cell rr Column.kProcessNiceColumn) ∧
    lessThan api m Column.kProcessPriorityColumn
        (QModelIndex.cell rl Column.kProcessPriorityColumn)
        (QModelIndex.cell rr Column.kProcessPriorityColumn) =
      (!api.variantLess (m.data rl Column.kProcessNiceColumn Role.UserRole)
        (m.data rr Column.kProcessNiceColumn Role.UserRole)) ∧
    ∀ m2 : SourceModel V,
      (∀ row, m2.hasIndex row Column.kProcessNiceColumn =
        m.hasIndex row Column.kProcessNiceColumn) →
      (∀ row role, m2.data row Column.kProcessNiceColumn role =
        m.data row Column.kProcessNiceColumn role) →
      lessThan api m2 Column.kProcessPriorityColumn
          (QModelIndex.cell rl Column.kProcessPriorityColumn)
          (QModelIndex.cell rr Column.kProcessPriorityColumn) =
        lessThan api m Column.kProcessPriorityColumn
          (QModelIndex.cell rl Column.kProcessPriorityColumn)
          (QModelIndex.cell rr Column.kProcessPriorityColumn) := by
  refine ⟨?_, ?_, ?_⟩
  · simp [lessThan, QModelIndex.data, QModelIndex.sibling, SourceModel.index, hl, hr]
  · simp [lessThan, QModelIndex.data, QModelIndex.sibling, SourceModel.index, hl, hr]
  · intro m2 h1 h2
    simp [lessThan, QModelIndex.data, QModelIndex.sibling, SourceModel.index, hl, hr, h1, h2]

/-- Claim C11 on the rows of nice values -5 and 5: both columns answer false. -/
theorem lessThan_priority_eq_nice_witness :
    lessThan (sampleApi false) tableNice Column.kProcessPriorityColumn
        (QModelIndex.cell 0 Column.kProcessPriorityColumn)
        (QModelIndex.cell 1 Column.kProcessPriorityColumn) = false ∧
      lessThan (sampleApi false) tableNice Column.kProcessNiceColumn
        (QModelIndex.cell 0 Column.kProcessNiceColumn)
        (QModelIndex.cell 1 Column.kProcessNiceColumn) = false :=
  ⟨(lessThan_priority_eq_nice (sampleApi false) tableNice 0 1 (by decide)
      (by decide)).2.1.trans (by decide),
    (lessThan_priority_eq_nice (sampleApi false) tableNice 0 1 (by decide)
      (by decide)).1.symm.trans (by decide)⟩

/-- Claim C12: with sort column Memory, for two rows of the table, lessThan is
the QVariant comparison of the CPU values when the memory values are equal,
and the QVariant comparison of the memory values when they are not. -/
theorem lessThan_memory_tie (api : QtApi V R) (m : SourceModel V) (rl rr : Int)
    (hl : m.hasIndex rl Column.kProcessCPUColumn = true)
    (hr : m.hasIndex rr Column.kProcessCPUColumn = true) :
    (api.variantEquals (m.data rl Column.kProcessMemoryColumn Role.UserRole)
        (m.data rr Column.kProcessMemoryColumn Role.UserRole) = true →
      lessThan api m Column.kProcessMemoryColumn
          (QModelIndex.cell rl Column.kProcessMemoryColumn)
          (QModelIndex.cell rr Column.kProcessMemoryColumn) =
        api.variantLess (m.data rl Column.kProcessCPUColumn Role.UserRole)
          (m.data rr Column.kProcessCPUColumn Role.UserRole)) ∧
    (api.variantEquals (m.data rl Column.kProcessMemoryColumn Role.UserRole)
        (m.data rr Column.kProcessMemoryColumn Role.UserRole) = false →
      lessThan api m Column.kProcessMemoryColumn
          (QModelIndex.cell rl Column.kProcessMemoryColumn)
          (QModelIndex.cell rr Column.kProcessMemoryColumn) =
        api.variantLess (m.data rl Column.kProcessMemoryColumn Role.UserRole)
          (m.data rr Column.kProcessMemoryColumn Role.UserRole)) := by
  constructor
  · intro he
    simp [lessThan, QModelIndex.data, QModelIndex.sibling, SourceModel.index, hl, hr, he]
  · intro he
    simp [lessThan, QModelIndex.data, QModelIndex.sibling, SourceModel.index, he]

/-- Claim C12 on two rows of equal memory with CPU 10 and 20: the row of CPU 10
is less than the row of CPU 20, and not conversely. -/
theorem lessThan_memory_tie_witness :
    lessThan (sampleApi false) tableMemory Column.kProcessMemoryColumn
        (QModelIndex.cell 0 Column.kProcessMemoryColumn)
        (QModelIndex.cell 1 Column.kProcessMemoryColumn) = true ∧
      lessThan (sampleApi false) tableMemory Column.kProcessMemoryColumn
        (QModelIndex.cell 1 Column.kProcessMemoryColumn)
        (QModelIndex.cell 0 Column.kProcessMemoryColumn) = false :=
  ⟨((lessThan_memory_tie (sampleApi false) tableMemory 0 1 (by decide) (by decide)).1
      (by decide)).trans (by decide),
    ((lessThan_memory_tie (sampleApi false) tableMemory 1 0 (by decide) (by decide)).1
      (by decide)).trans (by decide)⟩

/-- Claim C13: with sort column Upload, and with sort column Download, lessThan
is the comparison of the cumulative bytes when the two rates are approximately
equal, and the comparison of the rates when they are not; two equal rates are
compared by the bytes as soon as the rate is approximately equal to itself. -/
theorem lessThan_network_tie (api : QtApi V R) (m : SourceModel V) (col : Column)
    (l r : QModelIndex)
    (hcol : col = Column.kProcessUploadColumn ∨ col = Column.kProcessDownloadColumn) :
    (api.qFuzzyCompare (rateOf api m l) (rateOf api m r) = true →
      lessThan api m col l r = decide (bytesOf api m l < bytesOf api m r)) ∧
    (api.qFuzzyCompare (rateOf api m l) (rateOf api m r) = false →
      lessThan api m col l r = api.realLess (rateOf api m l) (rateOf api m r)) ∧
    (rateOf api m l = rateOf api m r →
      api.qFuzzyCompare (rateOf api m l) (rateOf api m l) = true →
      lessThan api m col l r = decide (bytesOf api m l < bytesOf api m r)) := by
  have key : lessThan api m col l r =
      (if api.qFuzzyCompare (rateOf api m l) (rateOf api m r) = true then
        decide (bytesOf api m l < bytesOf api m r)
      else api.realLess (rateOf api m l) (rateOf api m r)) := by
    rcases hcol with h | h <;> subst h <;> rfl
  refine ⟨?_, ?_, ?_⟩
  · intro hf
    rw [key, if_pos hf]
  · intro hf
    rw [key, if_neg (by simp [hf])]
  · intro he hf
    rw [key, ← he, if_pos hf]

/-- Claim C13 on two rows of rate 12.5 with 1000 and 2000 bytes, in the Upload
and in the Download column: the row of 1000 bytes is less than the row of 2000
bytes, and not conversely. -/
theorem lessThan_network_tie_witness :
    lessThan (sampleApi false) tableRates Column.kProcessUploadColumn
        (QModelIndex.cell 0 Column.kProcessUploadColumn)
        (QModelIndex.cell 1 Column.kProcessUploadColumn) = true ∧
      lessThan (sampleApi false) tableRates Column.kProcessUploadColumn
        (QModelIndex.cell 1 Column.kProcessUploadColumn)
        (QModelIndex.cell 0 Column.kProcessUploadColumn) = false ∧
      lessThan (sampleApi false) tableRates Column.kProcessDownloadColumn
        (QModelIndex.cell 0 Column.kProcessDownloadColumn)
        (QModelIndex.cell 1 Column.kProcessDownloadColumn) = true ∧
      lessThan (sampleApi false) tableRates Column.kProcessDownloadColumn
        (QModelIndex.cell 1 Column.kProcessDownloadColumn)
        (QModelIndex.cell 0 Column.kProcessDownloadColumn) = false :=
  ⟨((lessThan_network_tie (sampleApi false) tableRates Column.kProcessUploadColumn
      (QModelIndex.cell 0 Column.kProcessUploadColumn)
      (QModelIndex.cell 1 Column.kProcessUploadColumn) (Or.inl rfl)).2.2
      (by decide) (by decide)).trans (by decide),
    ((lessThan_network_tie (sampleApi false) tableRates Column.kProcessUploadColumn
      (QModelIndex.cell 1 Column.kProcessUploadColumn)
      (QModelIndex.cell 0 Column.kProcessUploadColumn) (Or.inl rfl)).1
      (by decide)).trans (by decide),
    ((lessThan_network_tie (sampleApi false) tableRates Column.kProcessDownloadColumn
      (QModelIndex.cell 0 Column.kProcessDownloadColumn)
      (QModelIndex.cell 1 Column.kProcessDownloadColumn) (Or.inr rfl)).2.2
      (by decide) (by decide)).trans (by decide),
    ((lessThan_network_tie (sampleApi false) tableRates Column.kProcessDownloadColumn
      (QModelIndex.cell 1 Column.kProcessDownloadColumn)
      (QModelIndex.cell 0 Column.kProcessDownloadColumn) (Or.inr rfl)).1
      (by decide)).trans (by decide)⟩

/-! ## The filter, row by row -/

/-- The filter without the test of the Chinese locale is `regExpAccepts`. -/
theorem filterAcceptsRow_split (api : QtApi V R) (st : ProxyState) (m : SourceModel V)
    (row : Int) :
    filterAcceptsRow api st m row =
      (regExpAccepts api st m row ||
        (api.localeIsChinese && m.hasIndex row Column.kProcessNameColumn &&
          QString.contains (api.toString (m.data row Column.kProcessNameColumn Role.UserRole))
            st.m_hanwords)) := by
  rw [filterAcceptsRow_eq]
  unfold regExpAccepts
  generalize m.hasIndex row Column.kProcessNameColumn = hn
  generalize m.hasIndex row Column.kProcessPIDColumn = hp
  generalize m.hasIndex row Column.kProcessUserColumn = hu
  generalize api.localeIsChinese = hc
  generalize containsRegExp api st.filterRegExp
    (api.toString (m.data row Column.kProcessNameColumn Role.DisplayRole)) = r1
  generalize containsRegExp api st.filterRegExp
    (api.toString (m.data row Column.kProcessNameColumn Role.UserRole)) = r2
  generalize containsRegExp api st.filterRegExp
    (api.toString (m.data row Column.kProcessPIDColumn Role.DisplayRole)) = r3
  generalize containsRegExp api st.filterRegExp
    (api.toString (m.data row Column.kProcessUserColumn Role.DisplayRole)) = r4
  generalize QString.contains
    (api.toString (m.data row Column.kProcessNameColumn Role.UserRole)) st.m_hanwords = r5
  revert hn hp hu hc r1 r2 r3 r4 r5
  decide

/-- Claim C15: for every search state and every locale, a row whose name
index, PID index and user index are all invalid is rejected, the empty
pattern included. -/
theorem filterAcceptsRow_invalid_row (api : QtApi V R) (st : ProxyState) (m : SourceModel V)
    (row : Int)
    (hn : m.hasIndex row Column.kProcessNameColumn = false)
    (hp : m.hasIndex row Column.kProcessPIDColumn = false)
    (hu : m.hasIndex row Column.kProcessUserColumn = false) :
    filterAcceptsRow api st m row = false := by
  rw [filterAcceptsRow_eq]
  simp [hn, hp, hu]

/-- Claim C15 on row 5 of a table of one row, in the Chinese locale and with
the empty pattern. -/
theorem filterAcceptsRow_invalid_row_witness :
    filterAcceptsRow (sampleApi true)
      (setSortFilterString (sampleApi true) ProxyState.init []) tableFirefox 5 = false :=
  filterAcceptsRow_invalid_row (sampleApi true) _ tableFirefox 5 (by decide) (by decide)
    (by decide)

/-- Claim C17: in the Chinese locale, for every search string and every row
whose name index is valid, if the alternate text of the row contains the
transliterated search string then, after setSortFilterString of the search
string, filterAcceptsRow accepts the row. -/
theorem filterAcceptsRow_hanwords (api : QtApi V R) (st : ProxyState) (m : SourceModel V)
    (row : Int) (search : QString)
    (hc : api.localeIsChinese = true)
    (hn : m.hasIndex row Column.kProcessNameColumn = true)
    (hcont : QString.contains
      (api.toString (m.data row Column.kProcessNameColumn Role.UserRole))
      (api.convHanToLatin search) = true) :
    filterAcceptsRow api (setSortFilterString api st search) m row = true := by
  rw [filterAcceptsRow_split, setSortFilterString_hanwords api st search hc]
  simp [hc, hn, hcont]

/-- Claim C17 on the process `tool` of alternate text `zhong jian tool`, for
the search string of the two ideographs U+4E2D U+95F4: the pattern matches no
text of the row, and the row is accepted. -/
theorem filterAcceptsRow_hanwords_witness :
    regExpAccepts (sampleApi true)
        (setSortFilterString (sampleApi true) ProxyState.init [20013, 38388]) tablePinyin 0
        = false ∧
      filterAcceptsRow (sampleApi true)
        (setSortFilterString (sampleApi true) ProxyState.init [20013, 38388]) tablePinyin 0
        = true :=
  ⟨by decide,
    filterAcceptsRow_hanwords (sampleApi true) ProxyState.init tablePinyin 0 [20013, 38388]
      rfl (by decide) (by decide)⟩

/-- Claim C18: outside the Chinese locale, filterAcceptsRow accepts a row
exactly when the pattern matches the display name or the alternate text (the
name index being valid), the PID string (the PID index being valid) or the
user name (the user index being valid); the result is the same in every state
with the same pattern, whatever `m_hanwords` and `m_capwords` hold. -/
theorem filterAcceptsRow_other_locale (api : QtApi V R) (st : ProxyState) (m : SourceModel V)
    (row : Int) (hc : api.localeIsChinese = false) :
    (filterAcceptsRow api st m row = true ↔
      ((m.hasIndex row Column.kProcessNameColumn = true ∧
          (containsRegExp api st.filterRegExp
              (api.toString (m.data row Column.kProcessNameColumn Role.DisplayRole)) = true ∨
            containsRegExp api st.filterRegExp
              (api.toString (m.data row Column.kProcessNameColumn Role.UserRole)) = true)) ∨
        (m.hasIndex row Column.kProcessPIDColumn = true ∧
          containsRegExp api st.filterRegExp
            (api.toString (m.data row Column.kProcessPIDColumn Role.DisplayRole)) = true) ∨
        (m.hasIndex row Column.kProcessUserColumn = true ∧
          containsRegExp api st.filterRegExp
            (api.toString (m.data row Column.kProcessUserColumn Role.DisplayRole)) = true))) ∧
    ∀ st2 : ProxyState, st2.filterRegExp = st.filterRegExp → st2.m_search = st.m_search →
      filterAcceptsRow api st2 m row = filterAcceptsRow api st m row := by
  constructor
  · rw [filterAcceptsRow_split]
    unfold regExpAccepts
    simp [hc, or_assoc]
  · intro st2 h1 _
    rw [filterAcceptsRow_split, filterAcceptsRow_split]
    unfold regExpAccepts
    simp [hc, h1]

/-- Claim C18 on the process `firefox` and the pattern `fox`: the row is
accepted in the state of a fresh search, and in a state that differs from it in
`m_hanwords` and `m_capwords`. -/
theorem filterAcceptsRow_other_locale_witness :
    filterAcceptsRow (sampleApi false)
        (setSortFilterString (sampleApi false) ProxyState.init (qstr "fox")) tableFirefox 0
        = true ∧
      filterAcceptsRow (sampleApi false)
        ⟨qstr "fox", qstr "firefox-esr", qstr "f", qstr "fox"⟩ tableFirefox 0 = true :=
  ⟨((filterAcceptsRow_other_locale (sampleApi false)
      (setSortFilterString (sampleApi false) ProxyState.init (qstr "fox")) tableFirefox 0
      rfl).1).2 (Or.inl ⟨by decide, Or.inl (by decide)⟩),
    (((filterAcceptsRow_other_locale (sampleApi false)
      (setSortFilterString (sampleApi false) ProxyState.init (qstr "fox")) tableFirefox 0
      rfl).2) ⟨qstr "fox", qstr "firefox-esr", qstr "f", qstr "fox"⟩ rfl rfl).trans
      (by decide)⟩

/-- Claim C20: for every search state and every row, a row accepted when the
locale is not Chinese is accepted when it is; and the row is accepted in the
Chinese locale only exactly when its name index is valid, its alternate text
contains `m_hanwords` and the pattern matches none of its texts. -/
theorem filterAcceptsRow_locale_widens (api : QtApi V R) (st : ProxyState) (m : SourceModel V)
    (row : Int) :
    (filterAcceptsRow (withLocale api false) st m row = true →
      filterAcceptsRow (withLocale api true) st m row = true) ∧
    ((filterAcceptsRow (withLocale api true) st m row = true ∧
        filterAcceptsRow (withLocale api false) st m row = false) ↔
      (m.hasIndex row Column.kProcessNameColumn = true ∧
        QString.contains (api.toString (m.data row Column.kProcessNameColumn Role.UserRole))
          st.m_hanwords = true ∧
        regExpAccepts api st m row = false)) := by
  have e1 : filterAcceptsRow (withLocale api false) st m row = regExpAccepts api st m row := by
    rw [filterAcceptsRow_split]
    show (regExpAccepts api st m row || (false && _ && _)) = _
    simp
  have e2 : filterAcceptsRow (withLocale api true) st m row =
      (regExpAccepts api st m row ||
        (m.hasIndex row Column.kProcessNameColumn &&
          QString.contains (api.toString (m.data row Column.kProcessNameColumn Role.UserRole))
            st.m_hanwords)) := by
    rw [filterAcceptsRow_split]
    show (regExpAccepts api st m row || (true && _ && _)) = _
    rfl
  rw [e1, e2]
  cases regExpAccepts api st m row <;>
    cases m.hasIndex row Column.kProcessNameColumn <;>
    cases QString.contains (api.toString (m.data row Column.kProcessNameColumn Role.UserRole))
      st.m_hanwords <;>
    simp

/-! ## Order properties of the comparator -/

/-- A strict weak order never holds both ways. -/
theorem StrictWeakOn.asymm {α : Type} {less tie : α → α → Bool} {ks : List α}
    (h : StrictWeakOn less tie ks) (x y : α) (hx : x ∈ ks) (hy : y ∈ ks)
    (hxy : less x y = true) : less y x = false := by
  cases hyx : less y x
  · rfl
  · have h1 := (h x hx y hy x hx).2.1 hxy hyx
    rw [(h x hx y hy x hx).1] at h1
    exact absurd h1 (by simp)

/-- Negative transitivity of a tie-broken comparison, on truth values: `m`
stands for the first comparison of two of three keys, `p q r` for the
tie-breaks. -/
theorem bool_lex_negtrans (mab mba mbc mcb mac mca p q r : Bool)
    (n1 : mac = true → mab = true ∨ mbc = true)
    (n2 : mba = true → mbc = true ∨ mca = true)
    (n3 : mbc = true → mba = true ∨ mac = true)
    (n4 : mcb = true → mca = true ∨ mab = true)
    (hc : r = true → p = true ∨ q = true)
    (hac : (if (!mac && !mca) = true then r else mac) = true) :
    (if (!mab && !mba) = true then p else mab) = true ∨
      (if (!mbc && !mcb) = true then q else mbc) = true := by
  revert n1 n2 n3 n4 hc hac
  revert mab mba mbc mcb mac mca p q r
  decide

/-- Asymmetry of a tie-broken comparison, on truth values. -/
theorem bool_lex_asymm (mab mba p q : Bool)
    (a1 : mab = true → mba = false) (a2 : p = true → q = false)
    (hab : (if (!mab && !mba) = true then p else mab) = true) :
    (if (!mba && !mab) = true then q else mba) = false := by
  revert a1 a2 hab
  revert mab mba p q
  decide

/-- A comparison by a strict weak order, with a negatively transitive
tie-break on its equivalence, is negatively transitive. -/
theorem lex_negtrans {α β : Type} (less tie : α → α → Bool) (tb : β → β → Bool)
    (ks : List α) (h : StrictWeakOn less tie ks)
    (x y z : α) (hx : x ∈ ks) (hy : y ∈ ks) (hz : z ∈ ks) (p q r : β)
    (hc : tb p r = true → tb p q = true ∨ tb q r = true)
    (hxz : (if tie x z = true then tb p r else less x z) = true) :
    (if tie x y = true then tb p q else less x y) = true ∨
      (if tie y z = true then tb q r else less y z) = true := by
  rw [(h x hx z hz y hy).2.2.2] at hxz
  rw [(h x hx y hy z hz).2.2.2, (h y hy z hz x hx).2.2.2]
  exact bool_lex_negtrans _ _ _ _ _ _ _ _ _ (h x hx y hy z hz).2.2.1 (h y hy z hz x hx).2.2.1
    (h y hy x hx z hz).2.2.1 (h z hz x hx y hy).2.2.1 hc hxz

/-- A comparison by a strict weak order, with an asymmetric tie-break on its
equivalence, never holds both ways. -/
theorem lex_asymm {α β : Type} (less tie : α → α → Bool) (tb : β → β → Bool)
    (ks : List α) (h : StrictWeakOn less tie ks)
    (x y : α) (hx : x ∈ ks) (hy : y ∈ ks) (p q : β)
    (ha : tb p q = true → tb q p = false)
    (hxy : (if tie x y = true then tb p q else less x y) = true) :
    (if tie y x = true then tb q p else less y x) = false := by
  rw [(h x hx y hy x hx).2.2.2] at hxy
  rw [(h y hy x hx y hy).2.2.2]
  exact bool_lex_asymm _ _ _ _ (h.asymm x y hx hy) ha hxy

/-- The comparison of the Memory column on the two memory values and the two
CPU values, as `lessThan` makes it. -/
theorem lessThan_memory_eq (api : QtApi V R) (m : SourceModel V) (l r : QModelIndex) :
    lessThan api m Column.kProcessMemoryColumn l r =
      (if api.variantEquals (l.data api m Role.UserRole) (r.data api m Role.UserRole) = true
        then api.variantLess (cpuOf api m l) (cpuOf api m r)
        else api.variantLess (l.data api m Role.UserRole) (r.data api m Role.UserRole)) := by
  rfl

/-- The sample QVariant comparison of two doubles: the first is smaller, and
one of them is zero or they are not approximately equal. -/
theorem Variant.less_real_iff (x y : Int) :
    Variant.less (Variant.real x) (Variant.real y) = true ↔
      x < y ∧ (x = 0 ∨ y = 0 ∨ min x.natAbs y.natAbs < (x - y).natAbs * 1000000000000) := by
  unfold Variant.less Variant.realEquals sampleFuzzyCompare
  simp only [Bool.and_eq_true, Bool.not_eq_true', Bool.or_eq_false_iff, decide_eq_false_iff_not,
    decide_eq_true_eq, Bool.and_eq_false_imp, ne_eq]
  constructor
  · rintro ⟨⟨_, h⟩, hlt⟩
    refine ⟨hlt, ?_⟩
    by_cases hx : x = 0
    · exact Or.inl hx
    · by_cases hy : y = 0
      · exact Or.inr (Or.inl hy)
      · have := h ⟨hx, hy⟩
        exact Or.inr (Or.inr (by omega))
  · rintro ⟨hlt, h⟩
    refine ⟨⟨by omega, ?_⟩, hlt⟩
    rintro ⟨hx, hy⟩
    rcases h with h | h | h
    · exact absurd h hx
    · exact absurd h hy
    · omega

/-- The sample QVariant comparison is irreflexive on every list of doubles. -/
theorem Variant.less_real_irreflOn (xs : List Int) :
    IrreflOn Variant.less (xs.map Variant.real) := by
  intro v hv
  obtain ⟨x, _, rfl⟩ := List.mem_map.mp hv
  cases h : Variant.less (Variant.real x) (Variant.real x)
  · rfl
  · exact absurd ((Variant.less_real_iff x x).mp h).1 (lt_irrefl x)

/-- The sample QVariant comparison is transitive on every list of doubles,
approximately equal ones included. -/
theorem Variant.less_real_transOn (xs : List Int) :
    TransOn Variant.less (xs.map Variant.real) := by
  intro u hu v hv w hw h1 h2
  obtain ⟨x, _, rfl⟩ := List.mem_map.mp hu
  obtain ⟨y, _, rfl⟩ := List.mem_map.mp hv
  obtain ⟨z, _, rfl⟩ := List.mem_map.mp hw
  rw [Variant.less_real_iff] at h1 h2 ⊢
  omega

/-- Claim C19 as stated fails: with sort column Memory, three rows of equal
memory whose CPU values 1, 1 + 2^-40 and 1 + 2^-39 are totally ordered numbers;
the first and the second row are not less than each other, nor are the second
and the third, and yet the first row is less than the third: incomparability
is not transitive. -/
theorem lessThan_memory_incomparable_sample :
    lessThan (sampleApi false) tableMemoryClose Column.kProcessMemoryColumn
        (QModelIndex.cell 0 Column.kProcessMemoryColumn)
        (QModelIndex.cell 1 Column.kProcessMemoryColumn) = false ∧
      lessThan (sampleApi false) tableMemoryClose Column.kProcessMemoryColumn
        (QModelIndex.cell 1 Column.kProcessMemoryColumn)
        (QModelIndex.cell 0 Column.kProcessMemoryColumn) = false ∧
      lessThan (sampleApi false) tableMemoryClose Column.kProcessMemoryColumn
        (QModelIndex.cell 1 Column.kProcessMemoryColumn)
        (QModelIndex.cell 2 Column.kProcessMemoryColumn) = false ∧
      lessThan (sampleApi false) tableMemoryClose Column.kProcessMemoryColumn
        (QModelIndex.cell 2 Column.kProcessMemoryColumn)
        (QModelIndex.cell 1 Column.kProcessMemoryColumn) = false ∧
      lessThan (sampleApi false) tableMemoryClose Column.kProcessMemoryColumn
        (QModelIndex.cell 0 Column.kProcessMemoryColumn)
        (QModelIndex.cell 2 Column.kProcessMemoryColumn) = true := by
  decide

/-- Claim C19, amended: with sort column Memory, on three rows whose memory
values are strictly weakly ordered by the QVariant comparison with QVariant
equality as the equivalence, and on whose CPU values the QVariant comparison
is irreflexive and transitive, lessThan is the lexicographic order of the
pairs (memory, CPU), and it is irreflexive, asymmetric and transitive; its
incomparability is transitive when the QVariant comparison of the CPU values
is moreover negatively transitive. -/
theorem lessThan_memory_lex (api : QtApi V R) (m : SourceModel V) (a b c : QModelIndex)
    (h1 : StrictWeakOn api.variantLess api.variantEquals
      [a.data api m Role.UserRole, b.data api m Role.UserRole, c.data api m Role.UserRole])
    (h2i : IrreflOn api.variantLess [cpuOf api m a, cpuOf api m b, cpuOf api m c])
    (h2t : TransOn api.variantLess [cpuOf api m a, cpuOf api m b, cpuOf api m c]) :
    lessThan api m Column.kProcessMemoryColumn a b =
        lexLess api.variantLess (a.data api m Role.UserRole) (cpuOf api m a)
          (b.data api m Role.UserRole) (cpuOf api m b) ∧
      lessThan api m Column.kProcessMemoryColumn a a = false ∧
      (lessThan api m Column.kProcessMemoryColumn a b = true →
        lessThan api m Column.kProcessMemoryColumn b a = false) ∧
      (lessThan api m Column.kProcessMemoryColumn a b = true →
        lessThan api m Column.kProcessMemoryColumn b c = true →
        lessThan api m Column.kProcessMemoryColumn a c = true) ∧
      (NegTransOn api.variantLess [cpuOf api m a, cpuOf api m b, cpuOf api m c] →
        lessThan api m Column.kProcessMemoryColumn a b = false →
        lessThan api m Column.kProcessMemoryColumn b a = false →
        lessThan api m Column.kProcessMemoryColumn b c = false →
        lessThan api m Column.kProcessMemoryColumn c b = false →
        lessThan api m Column.kProcessMemoryColumn a c = false ∧
          lessThan api m Column.kProcessMemoryColumn c a = false) := by
  have ma : a.data api m Role.UserRole ∈
      [a.data api m Role.UserRole, b.data api m Role.UserRole, c.data api m Role.UserRole] := by
    simp
  have mb : b.data api m Role.UserRole ∈
      [a.data api m Role.UserRole, b.data api m Role.UserRole, c.data api m Role.UserRole] := by
    simp
  have mc : c.data api m Role.UserRole ∈
      [a.data api m Role.UserRole, b.data api m Role.UserRole, c.data api m Role.UserRole] := by
    simp
  have ka : cpuOf api m a ∈ [cpuOf api m a, cpuOf api m b, cpuOf api m c] := by simp
  have kb : cpuOf api m b ∈ [cpuOf api m a, cpuOf api m b, cpuOf api m c] := by simp
  have kc : cpuOf api m c ∈ [cpuOf api m a, cpuOf api m b, cpuOf api m c] := by simp
  have cpuAsym : api.variantLess (cpuOf api m a) (cpuOf api m b) = true →
      api.variantLess (cpuOf api m b) (cpuOf api m a) = false := by
    intro h
    cases h' : api.variantLess (cpuOf api m b) (cpuOf api m a)
    · rfl
    · have := h2t _ ka _ kb _ ka h h'
      rw [h2i _ ka] at this
      exact absurd this (by simp)
  simp only [lessThan_memory_eq]
  refine ⟨?_, ?_, ?_, ?_, ?_⟩
  · rw [(h1 _ ma _ mb _ mc).2.2.2]
    unfold lexLess incomparable
    generalize api.variantLess (a.data api m Role.UserRole) (b.data api m Role.UserRole) = x
    generalize api.variantLess (b.data api m Role.UserRole) (a.data api m Role.UserRole) = y
    generalize api.variantLess (cpuOf api m a) (cpuOf api m b) = z
    revert x y z
    decide
  · rw [(h1 _ ma _ ma _ ma).2.2.2, (h1 _ ma _ ma _ ma).1]
    simp only [Bool.not_false, Bool.and_self, if_true]
    exact h2i _ ka
  · exact lex_asymm _ _ _ _ h1 _ _ ma mb _ _ cpuAsym
  · exact lex_trans _ _ _ _ h1 _ _ _ ma mb mc _ _ _ (h2t _ ka _ kb _ kc)
  · intro hn hab hba hbc hcb
    constructor
    · cases hac : (if api.variantEquals (a.data api m Role.UserRole)
          (c.data api m Role.UserRole) = true
          then api.variantLess (cpuOf api m a) (cpuOf api m c)
          else api.variantLess (a.data api m Role.UserRole) (c.data api m Role.UserRole))
      · rfl
      · rcases lex_negtrans _ _ _ _ h1 _ _ _ ma mb mc _ _ _ (hn _ ka _ kb _ kc) hac
          with h | h
        · rw [h] at hab; exact absurd hab (by simp)
        · rw [h] at hbc; exact absurd hbc (by simp)
    · cases hca : (if api.variantEquals (c.data api m Role.UserRole)
          (a.data api m Role.UserRole) = true
          then api.variantLess (cpuOf api m c) (cpuOf api m a)
          else api.variantLess (c.data api m Role.UserRole) (a.data api m Role.UserRole))
      · rfl
      · rcases lex_negtrans _ _ _ _ h1 _ _ _ mc mb ma _ _ _ (hn _ kc _ kb _ ka) hca
          with h | h
        · rw [h] at hcb; exact absurd hcb (by simp)
        · rw [h] at hba; exact absurd hba (by simp)

/-- The amended claim C19 on the three rows of equal memory and CPU 1,
1 + 2^-40, 1 + 2^-39, where the comparison of the CPU values is irreflexive
and transitive as on every list of doubles: no row is less than itself and the
third row is not less than the first; and on three rows with memory 100, 100
and 200 and CPU 10, 20 and 5, where the first row is less than the third. -/
theorem lessThan_memory_lex_witness :
    lessThan (sampleApi false) tableMemoryClose Column.kProcessMemoryColumn
        (QModelIndex.cell 0 Column.kProcessMemoryColumn)
        (QModelIndex.cell 0 Column.kProcessMemoryColumn) = false ∧
      lessThan (sampleApi false) tableMemoryClose Column.kProcessMemoryColumn
        (QModelIndex.cell 2 Column.kProcessMemoryColumn)
        (QModelIndex.cell 0 Column.kProcessMemoryColumn) = false ∧
      lessThan (sampleApi false) tableMemory Column.kProcessMemoryColumn
        (QModelIndex.cell 0 Column.kProcessMemoryColumn)
        (QModelIndex.cell 2 Column.kProcessMemoryColumn) = true :=
  have h := lessThan_memory_lex (sampleApi false) tableMemoryClose
    (QModelIndex.cell 0 Column.kProcessMemoryColumn)
    (QModelIndex.cell 2 Column.kProcessMemoryColumn)
    (QModelIndex.cell 1 Column.kProcessMemoryColumn)
    (by unfold StrictWeakOn; decide)
    (Variant.less_real_irreflOn [2 ^ 40, 2 ^ 40 + 2, 2 ^ 40 + 1])
    (Variant.less_real_transOn [2 ^ 40, 2 ^ 40 + 2, 2 ^ 40 + 1])
  have g := lessThan_memory_lex (sampleApi false) tableMemory
    (QModelIndex.cell 0 Column.kProcessMemoryColumn)
    (QModelIndex.cell 1 Column.kProcessMemoryColumn)
    (QModelIndex.cell 2 Column.kProcessMemoryColumn)
    (by unfold StrictWeakOn; decide)
    (Variant.less_real_irreflOn [10 * 2 ^ 40, 20 * 2 ^ 40, 5 * 2 ^ 40])
    (Variant.less_real_transOn [10 * 2 ^ 40, 20 * 2 ^ 40, 5 * 2 ^ 40])
  ⟨h.2.1, h.2.2.1 (by decide), g.2.2.2.1 (by decide) (by decide)⟩

/-- The raw comparison of two strings never holds both ways. -/
theorem QString.lt_asymm (a b : QString) (h : QString.lt a b = true) :
    QString.lt b a = false := by
  induction a generalizing b with
  | nil => exact QString.lt_nil_right b
  | cons x xs ih =>
    cases b with
    | nil => rw [QString.lt_nil_right] at h; exact absurd h (by simp)
    | cons y ys =>
      simp only [QString.lt] at h ⊢
      by_cases h1 : x < y
      · have h2 : ¬ y < x := not_lt.mpr (le_of_lt h1)
        simp [h1, h2]
      · by_cases h2 : y < x
        · simp [h1, h2] at h
        · simp only [h1, h2, if_false] at h ⊢
          exact ih ys h

/-- The condition of the fast path does not depend on the order of the names. -/
theorem fastPath_comm (api : QtApi V R) (a b : QString) :
    fastPath api a b = fastPath api b a := by
  unfold fastPath
  by_cases h : QString.charAt a 0 = QString.charAt b 0
  · simp [h]
  · have h2 : ¬ QString.charAt b 0 = QString.charAt a 0 := fun e => h e.symm
    simp [h, h2, Bool.and_comm]

/-- A comparison with a tie-break never holds both ways when the test of the
tie is symmetric and neither comparison holds both ways. -/
theorem tie_break_asymm {α β : Type} (less tie : α → α → Bool) (tb : β → β → Bool)
    (x y : α) (p q : β) (hs : tie x y = tie y x)
    (hl : less x y = true → less y x = false) (ht : tb p q = true → tb q p = false)
    (hxy : (if tie x y = true then tb p q else less x y) = true) :
    (if tie y x = true then tb q p else less y x) = false := by
  rw [← hs]
  by_cases h : tie x y = true
  · rw [if_pos h] at hxy ⊢
    exact ht hxy
  · rw [if_neg h] at hxy ⊢
    exact hl hxy

/-- Outside the Nice and Priority columns lessThan never holds both ways, when
the comparisons of the services never do on the sort keys of the two rows and
the tests of a tie are symmetric. -/
theorem lessThan_asymm_core (api : QtApi V R) (m : SourceModel V) (col : Column)
    (a b : QModelIndex)
    (hN : col ≠ Column.kProcessNiceColumn) (hP : col ≠ Column.kProcessPriorityColumn)
    (h1 : AsymOn api.variantLess (primaryKeys api m col a ++ primaryKeys api m col b))
    (h1s : SymmOn (primaryTie api col) (primaryKeys api m col a ++ primaryKeys api m col b))
    (h2 : AsymOn api.variantLess (tieKeys api m col a ++ tieKeys api m col b))
    (h3 : AsymOn api.realLess (sortRates api m col a ++ sortRates api m col b))
    (h3s : SymmOn api.qFuzzyCompare (sortRates api m col a ++ sortRates api m col b))
    (h4 : CollatorAsymOn api (sortTexts api m col a ++ sortTexts api m col b))
    (h6 : AsymOn api.isVariantLessThan (defaultKeys api m col a ++ defaultKeys api m col b))
    (hab : lessThan api m col a b = true) : lessThan api m col b a = false := by
  have natAsym : ∀ p q : Nat, decide (p < q) = true → decide (q < p) = false := by
    intro p q h
    exact decide_eq_false (not_lt.mpr (le_of_lt (of_decide_eq_true h)))
  cases col with
  | kProcessNameColumn =>
    rw [lessThan_name_eq] at hab ⊢
    by_cases he : (displayText api m a).length = 0 ∨ (displayText api m b).length = 0
    · rw [if_pos he] at hab
      rw [if_pos he.symm]
      exact QString.lt_asymm _ _ hab
    · rw [if_neg he] at hab
      rw [if_neg (fun h => he h.symm)]
      by_cases heq : QString.charAt (displayText api m a) 0 =
          QString.charAt (displayText api m b) 0 ∧ displayText api m a = displayText api m b
      · rw [if_pos heq] at hab
        rw [if_pos ⟨heq.1.symm, heq.2.symm⟩]
        exact h2 _ (by simp [tieKeys]) _ (by simp [tieKeys]) hab
      · rw [if_neg heq] at hab
        rw [if_neg (fun h => heq ⟨h.1.symm, h.2.symm⟩), fastPath_comm api]
        by_cases hf : fastPath api (displayText api m a) (displayText api m b) = true
        · rw [if_pos hf] at hab ⊢
          exact QString.lt_asymm _ _ hab
        · rw [if_neg hf] at hab ⊢
          exact decide_eq_false (h4 _ (by simp [sortTexts]) _ (by simp [sortTexts])
            (of_decide_eq_true hab))
  | kProcessUserColumn =>
    exact decide_eq_false (h4 _ (by simp [sortTexts, displayText]) _
      (by simp [sortTexts, displayText]) (of_decide_eq_true hab))
  | kProcessMemoryColumn =>
    exact tie_break_asymm api.variantLess (primaryTie api Column.kProcessMemoryColumn)
      api.variantLess _ _ (cpuOf api m a) (cpuOf api m b)
      (h1s _ (by simp [primaryKeys]) _ (by simp [primaryKeys]))
      (h1 _ (by simp [primaryKeys]) _ (by simp [primaryKeys]))
      (h2 _ (by simp [tieKeys]) _ (by simp [tieKeys])) hab
  | kProcessCPUColumn =>
    exact tie_break_asymm api.variantLess (primaryTie api Column.kProcessCPUColumn)
      api.variantLess _ _ (memoryOf api m a) (memoryOf api m b)
      (h1s _ (by simp [primaryKeys]) _ (by simp [primaryKeys]))
      (h1 _ (by simp [primaryKeys]) _ (by simp [primaryKeys]))
      (h2 _ (by simp [tieKeys]) _ (by simp [tieKeys])) hab
  | kProcessUploadColumn =>
    exact tie_break_asymm api.realLess api.qFuzzyCompare (fun p q : Nat => decide (p < q))
      _ _ (bytesOf api m a) (bytesOf api m b)
      (h3s _ (by simp [sortRates]) _ (by simp [sortRates]))
      (h3 _ (by simp [sortRates]) _ (by simp [sortRates])) (natAsym _ _) hab
  | kProcessDownloadColumn =>
    exact tie_break_asymm api.realLess api.qFuzzyCompare (fun p q : Nat => decide (p < q))
      _ _ (bytesOf api m a) (bytesOf api m b)
      (h3s _ (by simp [sortRates]) _ (by simp [sortRates]))
      (h3 _ (by simp [sortRates]) _ (by simp [sortRates])) (natAsym _ _) hab
  | kProcessPIDColumn => exact h1 _ (by simp [primaryKeys]) _ (by simp [primaryKeys]) hab
  | kProcessDiskReadColumn => exact h1 _ (by simp [primaryKeys]) _ (by simp [primaryKeys]) hab
  | kProcessDiskWriteColumn => exact h1 _ (by simp [primaryKeys]) _ (by simp [primaryKeys]) hab
  | kProcessNiceColumn => exact absurd rfl hN
  | kProcessPriorityColumn => exact absurd rfl hP
  | unlisted n => exact h6 _ (by simp [defaultKeys]) _ (by simp [defaultKeys]) hab

/-- Claim C16: for every sort column and two rows a and b, when the
comparisons of the services never hold both ways on the sort keys of the two
rows, the tests of a tie are symmetric, and two QVariants neither of which is
less than the other are equal: outside the Nice and Priority columns
lessThan(a, b) and lessThan(b, a) never both hold; and whenever both hold, the
sort keys of a and b are equal, neither being less than the other. -/
theorem lessThan_asymm_or_equal (api : QtApi V R) (m : SourceModel V) (col : Column)
    (a b : QModelIndex)
    (h1 : AsymOn api.variantLess (primaryKeys api m col a ++ primaryKeys api m col b))
    (h1s : SymmOn (primaryTie api col) (primaryKeys api m col a ++ primaryKeys api m col b))
    (h2 : AsymOn api.variantLess (tieKeys api m col a ++ tieKeys api m col b))
    (h3 : AsymOn api.realLess (sortRates api m col a ++ sortRates api m col b))
    (h3s : SymmOn api.qFuzzyCompare (sortRates api m col a ++ sortRates api m col b))
    (h4 : CollatorAsymOn api (sortTexts api m col a ++ sortTexts api m col b))
    (h6 : AsymOn api.isVariantLessThan (defaultKeys api m col a ++ defaultKeys api m col b))
    (h7 : ∀ x ∈ primaryKeys api m col a, ∀ y ∈ primaryKeys api m col b,
      api.variantLess x y = false → api.variantLess y x = false →
        api.variantEquals x y = true) :
    ((col ≠ Column.kProcessNiceColumn ∧ col ≠ Column.kProcessPriorityColumn) →
      ¬ (lessThan api m col a b = true ∧ lessThan api m col b a = true)) ∧
    (lessThan api m col a b = true → lessThan api m col b a = true →
      ∀ x ∈ primaryKeys api m col a, ∀ y ∈ primaryKeys api m col b,
        api.variantLess x y = false ∧ api.variantLess y x = false ∧
          api.variantEquals x y = true) := by
  have core : col ≠ Column.kProcessNiceColumn → col ≠ Column.kProcessPriorityColumn →
      lessThan api m col a b = true → lessThan api m col b a = true → False := by
    intro hN hP hab hba
    rw [lessThan_asymm_core api m col a b hN hP h1 h1s h2 h3 h3s h4 h6 hab] at hba
    exact absurd hba (by simp)
  refine ⟨fun hc hboth => core hc.1 hc.2 hboth.1 hboth.2, ?_⟩
  intro hab hba x hx y hy
  by_cases hN : col = Column.kProcessNiceColumn
  · subst hN
    simp only [primaryKeys, List.mem_singleton] at hx hy
    subst hx
    subst hy
    simp only [lessThan, Bool.not_eq_true'] at hab hba
    exact ⟨hab, hba, h7 _ (by simp [primaryKeys]) _ (by simp [primaryKeys]) hab hba⟩
  · by_cases hP : col = Column.kProcessPriorityColumn
    · subst hP
      simp only [primaryKeys, List.mem_singleton] at hx hy
      subst hx
      subst hy
      have hab2 : api.variantLess (niceOf api m a) (niceOf api m b) = false := by
        simpa [lessThan, niceOf] using hab
      have hba2 : api.variantLess (niceOf api m b) (niceOf api m a) = false := by
        simpa [lessThan, niceOf] using hba
      exact ⟨hab2, hba2, h7 _ (by simp [primaryKeys]) _ (by simp [primaryKeys]) hab2 hba2⟩
    · exact absurd hba (fun h => core hN hP hab h)

/-- Claim C16 on two rows of memory 100 and 200, which are never less than
each other both ways in the Memory column, and on two rows of nice value 3,
which are less than each other both ways in the Nice column and whose nice
values are equal. -/
theorem lessThan_asymm_or_equal_witness :
    ¬ (lessThan (sampleApi false) tableTwoMemory Column.kProcessMemoryColumn
          (QModelIndex.cell 0 Column.kProcessMemoryColumn)
          (QModelIndex.cell 1 Column.kProcessMemoryColumn) = true ∧
        lessThan (sampleApi false) tableTwoMemory Column.kProcessMemoryColumn
          (QModelIndex.cell 1 Column.kProcessMemoryColumn)
          (QModelIndex.cell 0 Column.kProcessMemoryColumn) = true) ∧
      (sampleApi false).variantEquals
        (tableNiceEqual.data 0 Column.kProcessNiceColumn Role.UserRole)
        (tableNiceEqual.data 1 Column.kProcessNiceColumn Role.UserRole) = true :=
  ⟨(lessThan_asymm_or_equal (sampleApi false) tableTwoMemory Column.kProcessMemoryColumn
      (QModelIndex.cell 0 Column.kProcessMemoryColumn)
      (QModelIndex.cell 1 Column.kProcessMemoryColumn)
      (by unfold AsymOn; decide) (by unfold SymmOn; decide) (by unfold AsymOn; decide)
      (by unfold AsymOn; decide) (by unfold SymmOn; decide) (by unfold CollatorAsymOn; decide)
      (by unfold AsymOn; decide) (by decide)).1 ⟨by decide, by decide⟩,
    ((lessThan_asymm_or_equal (sampleApi false) tableNiceEqual Column.kProcessNiceColumn
      (QModelIndex.cell 0 Column.kProcessNiceColumn)
      (QModelIndex.cell 1 Column.kProcessNiceColumn)
      (by unfold AsymOn; decide) (by unfold SymmOn; decide) (by unfold AsymOn; decide)
      (by unfold AsymOn; decide) (by unfold SymmOn; decide) (by unfold CollatorAsymOn; decide)
      (by unfold AsymOn; decide) (by decide)).2 (by decide) (by decide)
      (tableNiceEqual.data 0 Column.kProcessNiceColumn Role.UserRole) (by decide)
      (tableNiceEqual.data 1 Column.kProcessNiceColumn Role.UserRole) (by decide)).2.2⟩

/-! ## Invalid indices in the comparator -/

/-- Claim C14 as stated fails: with sort column Name, the left index being
invalid and the right one the row of the process `bash`, lessThan answers
true: the empty text of the invalid index is less than the name `bash`. -/
theorem lessThan_invalid_left_sample :
    QModelIndex.isValid QModelIndex.invalid = false ∧
      lessThan (sampleApi false) tableSameName Column.kProcessNameColumn
        QModelIndex.invalid (QModelIndex.cell 0 Column.kProcessNameColumn) = true := by
  decide

/-- Claim C14, amended: when the invalid QVariant has the empty text and is
not less than itself (nor its real value, nor the empty text by the collator),
lessThan answers false on two invalid indices for every sort column other than
Nice and Priority; with sort column Name it answers false whenever the right
index is invalid, and when the left index is invalid it answers true exactly
when the display name of the right index is not empty. -/
theorem lessThan_invalid (api : QtApi V R) (m : SourceModel V)
    (htext : api.toString api.invalidVariant = [])
    (hless : api.variantLess api.invalidVariant api.invalidVariant = false)
    (hreal : api.realLess (api.toReal api.invalidVariant) (api.toReal api.invalidVariant)
      = false)
    (hcoll : ¬ api.collatorCompare [] [] < 0)
    (hdef : api.isVariantLessThan api.invalidVariant api.invalidVariant = false) :
    (∀ col, col ≠ Column.kProcessNiceColumn → col ≠ Column.kProcessPriorityColumn →
      lessThan api m col QModelIndex.invalid QModelIndex.invalid = false) ∧
    (∀ l, lessThan api m Column.kProcessNameColumn l QModelIndex.invalid = false) ∧
    (∀ r, lessThan api m Column.kProcessNameColumn QModelIndex.invalid r =
      decide (displayText api m r ≠ [])) := by
  have hd : displayText api m QModelIndex.invalid = [] := htext
  refine ⟨?_, ?_, ?_⟩
  · intro col hN hP
    apply lessThan_irrefl_of_lawful api m col QModelIndex.invalid hN hP
    · intro v hv
      have : v = api.invalidVariant := by
        cases col <;>
          simp [primaryKeys, tieKeys, cpuOf, memoryOf, niceOf, QModelIndex.sibling,
            QModelIndex.data] at hv <;>
          exact hv
      rw [this]
      exact hless
    · intro r hr
      have : r = api.toReal api.invalidVariant := by
        cases col <;> simp [sortRates, QModelIndex.data] at hr <;> exact hr
      rw [this]
      exact hreal
    · intro t ht
      have : t = [] := by
        cases col <;> simp [sortTexts, hd] at ht <;> exact ht
      rw [this]
      exact hcoll
    · intro v hv
      have : v = api.invalidVariant := by
        cases col <;> simp [defaultKeys, QModelIndex.data] at hv
        exact hv
      rw [this]
      exact hdef
  · intro l
    rw [lessThan_name_eq, hd]
    simp only [List.length_nil, or_true, if_true]
    exact QString.lt_nil_right _
  · intro r
    rw [lessThan_name_eq, hd]
    simp only [List.length_nil, true_or, if_true]
    cases displayText api m r with
    | nil => rfl
    | cons c cs => rfl

/-- The amended claim C14 on the table of two processes named `bash`: two
invalid indices in the Memory column, an invalid right index and an invalid
left index in the Name column. -/
theorem lessThan_invalid_witness :
    lessThan (sampleApi false) tableSameName Column.kProcessMemoryColumn
        QModelIndex.invalid QModelIndex.invalid = false ∧
      lessThan (sampleApi false) tableSameName Column.kProcessNameColumn
        (QModelIndex.cell 0 Column.kProcessNameColumn) QModelIndex.invalid = false ∧
      lessThan (sampleApi false) tableSameName Column.kProcessNameColumn
        QModelIndex.invalid (QModelIndex.cell 1 Column.kProcessNameColumn) = true :=
  have h := lessThan_invalid (sampleApi false) tableSameName rfl rfl (by decide) (by decide) rfl
  ⟨h.1 Column.kProcessMemoryColumn (by decide) (by decide),
    h.2.1 (QModelIndex.cell 0 Column.kProcessNameColumn),
    (h.2.2 (QModelIndex.cell 1 Column.kProcessNameColumn)).trans (by decide)⟩

end ProcessMonitor
